import Mathlib

/-
  Verification development for the running-dashboard analytics and
  recommendation engine.

  Modelling conventions (shallow embedding of the TypeScript source):
  * JS numbers are modelled as rationals (ℚ); `Math.round x` is `⌊x + 1/2⌋`
    (JS rounds half toward +∞), `Math.floor` is `⌊·⌋`.
  * Timestamps are modelled at calendar-day granularity: a date is an integer
    day index with day 0 = 1970-01-01 (a Thursday, so `getDay` day 0 = 4),
    and local time is identified with UTC.  The consistency analyzer works on
    millisecond timestamps of local midnights, exactly as the source does.
  * JS falsiness of the number 0 and of `undefined` in `a || b` expressions is
    modelled explicitly (`jsOr`, `jsOrInt`, `jsOrDay`).
  * Formatted strings that merely render numbers are abstracted by the numbers
    they render: `formatPace` returns the (minutes, seconds) pair of the
    "M:SS" string, and recommendation note strings are an inductive carrying
    the interpolated number where there is one.
  * `NaN` (arising from reading the absent `distance` property of a parkrun
    result row) is modelled as `none : Option ℚ`, with arithmetic and
    comparisons propagating it exactly as IEEE NaN does in JS.
  * The database layer is a boundary: each embedded operation takes the list
    of records the corresponding SQL query or `getRuns()` call returns.
-/

/-- A run record, restricted to the fields the analytics read.
`start_date_local` is the local calendar-day index of the run. -/
structure Run where
  start_date_local : ℤ
  distance : ℚ
  moving_time : ℚ
  average_speed : Option ℚ
  total_elevation_gain : Option ℚ
  latitude_start : Option ℚ
  longitude_start : Option ℚ
deriving DecidableEq

/-- A parkrun result row, restricted to the field `getSummary` reads.
`finish_time` is the list of colon-separated numeric parts of the
"HH:MM:SS" / "MM:SS" string. -/
structure ParkrunResult where
  finish_time : List ℚ
deriving DecidableEq

/-- JS `Math.round`: round half toward positive infinity. -/
def jround (q : ℚ) : ℤ := ⌊q + 1/2⌋

/-- JS `Math.round`, kept in ℚ. -/
def jroundQ (q : ℚ) : ℚ := (jround q : ℚ)

/-- JS `Number.prototype.toFixed(1)` (then `parseFloat`), as a rational. -/
def toFixed1 (q : ℚ) : ℚ := jroundQ (q * 10) / 10

/-- JS `Date.prototype.getDay` on a day index (0 = Sunday ... 6 = Saturday);
day 0 = 1970-01-01 was a Thursday. -/
def jsGetDay (d : ℤ) : ℤ := (d + 4) % 7

/-- JS `a || b` for an optional number `a` (both `undefined` and `0` are
falsy). -/
def jsOr (o : Option ℚ) (d : ℚ) : ℚ :=
  match o with
  | some g => if g = 0 then d else g
  | none => d

/-- JS `a || b` on an optional integer (used for `parseInt(q) || 4`). -/
def jsOrInt (o : Option ℤ) (d : ℤ) : ℤ :=
  match o with
  | some x => if x = 0 then d else x
  | none => d

/-- JS `a || b` where both sides are optional day numbers (used for
`find(...) || days[0]`; day 0, Sunday, is falsy). -/
def jsOrDay (v : Option ℤ) (fallback : Option ℤ) : Option ℤ :=
  match v with
  | some x => if x = 0 then fallback else some x
  | none => fallback

/-- NaN-propagating addition (`none` is NaN / undefined). -/
def jsAdd (a b : Option ℚ) : Option ℚ :=
  match a, b with
  | some x, some y => some (x + y)
  | _, _ => none

/-- NaN-aware strict `>` (any comparison with NaN is false). -/
def jsGtO (a b : Option ℚ) : Bool :=
  match a, b with
  | some x, some y => decide (y < x)
  | _, _ => false

/-- NaN-propagating division by a real number. -/
def jsDivO (a : Option ℚ) (b : ℚ) : Option ℚ := a.map (· / b)

/-- Stable insertion of `x` into a list: `x` goes after every `y` with
`le y x` true.  With a `le` read off a JS comparator this reproduces the
(stable, ES2019) `Array.prototype.sort`. -/
def insertLe (le : α → α → Bool) (x : α) : List α → List α
  | [] => [x]
  | y :: ys => if le y x then y :: insertLe le x ys else x :: y :: ys

/-- Stable sort by a boolean `le`, modelling JS `Array.prototype.sort`. -/
def sortBy (le : α → α → Bool) (l : List α) : List α :=
  l.foldl (fun s x => insertLe le x s) []

/-- `List.mapM` specialised to `Except`, with the error of the first failing
element (a thrown exception aborts a JS `forEach` at that element). -/
def mapME (f : α → Except ε β) : List α → Except ε (List β)
  | [] => .ok []
  | x :: xs =>
    match f x with
    | .error e => .error e
    | .ok y =>
      match mapME f xs with
      | .error e => .error e
      | .ok ys => .ok (y :: ys)

/-- MAX aggregate of a list of rationals (`none` on an empty list, like SQL). -/
def listMaxQ (l : List ℚ) : Option ℚ :=
  l.foldl (fun acc x =>
    match acc with
    | none => some x
    | some m => some (max m x)) none

/-- Output record of `DatabaseService.getRunStats`. -/
structure RunStats where
  total_runs : ℕ
  total_distance : ℚ
  total_time : ℚ
  average_distance : ℚ
  average_pace_seconds : ℚ
  average_speed_kmh : ℚ
  longest_run : ℚ
  most_frequent_day : String
deriving DecidableEq

/-- The weekday names used by `getRunStats` ('%w' order, Sunday first). -/
def weekdayNames : List String :=
  ["Sunday", "Monday", "Tuesday", "Wednesday", "Thursday", "Friday", "Saturday"]

/-- Most frequent weekday of the runs: GROUP BY weekday, ORDER BY count DESC,
LIMIT 1 (ties resolved to the smallest weekday index, the grouped-scan order),
and 'N/A' when there are no rows. -/
def mostFrequentDayOf (runs : List Run) : String :=
  let cnt : ℕ → ℕ := fun w =>
    (runs.filter (fun r => jsGetDay r.start_date_local = (w : ℤ))).length
  let present := (List.range 7).filter (fun w => 0 < cnt w)
  match (sortBy (fun a b => cnt b ≤ cnt a) present).head? with
  | none => "N/A"
  | some w => weekdayNames.getD w "N/A"

/-- `DatabaseService.getRunStats` over the runs the SQL query returns:
COUNT, SUM(distance), SUM(moving_time), AVG(distance),
AVG(pace over rows with distance > 0 and moving_time > 0),
AVG(average_speed) * 3.6, MAX(distance), most frequent weekday; every NULL
aggregate is defaulted to 0 (`result.x || 0`). -/
def getRunStats (runs : List Run) : RunStats :=
  let paces := runs.filterMap (fun r =>
    if 0 < r.distance ∧ 0 < r.moving_time
    then some (r.moving_time * 1000 / r.distance) else none)
  let speeds := runs.filterMap (fun r => r.average_speed)
  { total_runs := runs.length
    total_distance := (runs.map (fun r => r.distance)).sum
    total_time := (runs.map (fun r => r.moving_time)).sum
    average_distance :=
      if runs.length = 0 then 0 else (runs.map (fun r => r.distance)).sum / runs.length
    average_pace_seconds :=
      if paces.length = 0 then 0 else paces.sum / paces.length
    average_speed_kmh :=
      if speeds.length = 0 then 0 else speeds.sum / speeds.length * (36/10)
    longest_run := (listMaxQ (runs.map (fun r => r.distance))).getD 0
    most_frequent_day := mostFrequentDayOf runs }

/-- Output of `StatsService.getSummary`.  `total_distance` and
`average_distance` may be NaN (`none`) when parkrun results are folded in,
because parkrun rows carry no `distance` column. -/
structure Summary where
  total_runs : ℕ
  total_distance : Option ℚ
  total_time : ℚ
  average_distance : Option ℚ
  average_pace_seconds : ℚ
  average_speed_kmh : ℚ
  longest_run : Option ℚ
  most_frequent_day : String
deriving DecidableEq

/-- Helper converting a parkrun `finish_time` (split on ':') to seconds. -/
def parseTimeToSeconds (parts : List ℚ) : ℚ :=
  match parts with
  | [h, m, s] => h * 3600 + m * 60 + s
  | [m, s] => m * 60 + s
  | _ => 0

/-- Reading `pr.distance` on a parkrun result: neither the `parkrun_results`
table nor the `ParkrunResult` interface has a `distance` column, so the
property access evaluates to `undefined` (NaN once used in arithmetic). -/
def prDistanceRead (_pr : ParkrunResult) : Option ℚ := none

/-- `StatsService.getSummary` (the parkrun-aware revision): start from
`getRunStats`, and if parkrun is enabled and any results are in range, fold
their count, time and (absent) distance into the totals and recompute the
averages from the combined totals. -/
def getSummary (parkrunEnabled : Bool) (runs : List Run)
    (parkrunResults : List ParkrunResult) : Summary :=
  let rs := getRunStats runs
  if parkrunEnabled = true ∧ 0 < parkrunResults.length then
    let prCount := parkrunResults.length
    let prTime := (parkrunResults.map (fun pr => parseTimeToSeconds pr.finish_time)).sum
    let prDistance := parkrunResults.foldl (fun acc pr => jsAdd acc (prDistanceRead pr)) (some 0)
    let maxDist := parkrunResults.foldl
      (fun m pr => if jsGtO (prDistanceRead pr) m then prDistanceRead pr else m) (some 0)
    let total_runs := rs.total_runs + prCount
    let total_distance := jsAdd (some rs.total_distance) prDistance
    let total_time := rs.total_time + prTime
    let average_distance :=
      if 0 < total_runs then jsDivO total_distance total_runs else some rs.average_distance
    let speedPace : ℚ × ℚ :=
      match total_distance with
      | some td =>
        if 0 < td ∧ 0 < total_time
        then (toFixed1 (td / 1000 / (total_time / 3600)), jroundQ (total_time / (td / 1000)))
        else (0, 0)
      | none => (0, 0)
    let longest_run :=
      if jsGtO maxDist (some rs.longest_run) then maxDist else some rs.longest_run
    { total_runs := total_runs
      total_distance := total_distance
      total_time := total_time
      average_distance := average_distance
      average_pace_seconds := speedPace.2
      average_speed_kmh := speedPace.1
      longest_run := longest_run
      most_frequent_day := rs.most_frequent_day }
  else
    { total_runs := rs.total_runs
      total_distance := some rs.total_distance
      total_time := rs.total_time
      average_distance := some rs.average_distance
      average_pace_seconds := rs.average_pace_seconds
      average_speed_kmh := rs.average_speed_kmh
      longest_run := some rs.longest_run
      most_frequent_day := rs.most_frequent_day }

/-- The spec's definition of the summary pace: the unweighted arithmetic mean,
over the activities with positive distance and positive duration, of each
activity's own pace in seconds per kilometre. -/
def specUnweightedMeanPace (runs : List Run) : ℚ :=
  let q := runs.filter (fun r => 0 < r.distance ∧ 0 < r.moving_time)
  (q.map (fun r => r.moving_time * 1000 / r.distance)).sum / q.length

/-- `formatPace`: seconds-per-km to the (minutes, seconds) pair rendered as
"M:SS" — `Math.floor(s / 60)` and `Math.round(s % 60)` (JS `%` agrees with
`s - 60 * ⌊s / 60⌋` on the non-negative values this is applied to). -/
def formatPace (secondsPerKm : ℚ) : ℤ × ℤ :=
  (⌊secondsPerKm / 60⌋, jround (secondsPerKm - 60 * ⌊secondsPerKm / 60⌋))

/-- Output of `StatsService.predict5KTime`. -/
structure Prediction where
  predicted_seconds : ℤ
  predicted_time : ℤ × ℤ
  confidence : String
deriving DecidableEq

/-- `StatsService.predict5KTime` over the most recent (≤ 20, date-descending)
runs the store query returns: keep runs of at least 4000 m, average their
positive paces and extrapolate to 5 km; `none` when there is no qualifying
data. -/
def predict5KTime (runs : List Run) : Option Prediction :=
  let recentFarRuns := runs.filter (fun r => 4000 ≤ r.distance)
  if recentFarRuns.length = 0 then none
  else
    let paces := (recentFarRuns.map (fun r => r.moving_time * 1000 / r.distance)).filter
      (fun p => 0 < p)
    if paces.length = 0 then none
    else
      let avgPace := paces.sum / (paces.length : ℚ)
      let predicted5KSeconds := avgPace * 5
      some { predicted_seconds := jround predicted5KSeconds
             predicted_time := formatPace predicted5KSeconds
             confidence :=
               if 10 ≤ paces.length then "high"
               else if 5 ≤ paces.length then "medium" else "low" }

/-- Output of `StatsService.getPersonalRecords`; record times are the
(minutes, seconds) pairs produced by `formatPace`, dates are day indices. -/
structure PersonalRecords where
  longest_distance : Option (ℚ × ℤ)
  fastest_5k : Option ((ℤ × ℤ) × ℤ)
  fastest_10k : Option ((ℤ × ℤ) × ℤ)
  most_elevation : Option (ℤ × ℤ)
deriving DecidableEq

/-- `StatsService.getPersonalRecords` over the runs the store returns
(`getRuns({ limit: 1000 })`).
* longest distance: `run.distance > (max?.distance || 0)` reduce from null;
* fastest 5k / 10k: among runs of at least 5000 / 10000 m with positive pace,
  keep the run with the strictly smallest pace (`pace < (best?.pace ||
  Infinity)`, so the first of a tie wins and a null/zero best counts as
  infinity), and report `formatPace(moving_time * 1000 / 5000 * 5)`
  (resp. `/ 10000 * 10`) with its date;
* most elevation: the accumulator is a run record, which has no `elevation`
  property, so `(max?.elevation || 0)` is always 0 and the reduce keeps the
  last run whose elevation gain is positive. -/
def getPersonalRecords (runs : List Run) : PersonalRecords :=
  let longest := runs.foldl (fun acc r =>
    if (match acc with | none => (0 : ℚ) | some a => a.distance) < r.distance
    then some r else acc) (none : Option Run)
  let fiveKs := runs.filter (fun r =>
    5000 ≤ r.distance ∧ 0 < r.moving_time * 1000 / r.distance)
  let fastest5k := fiveKs.foldl (fun best r =>
    let pace := r.moving_time * 1000 / r.distance
    match best with
    | none => some (r, pace)
    | some bp => if bp.2 = 0 ∨ pace < bp.2 then some (r, pace) else best)
    (none : Option (Run × ℚ))
  let tenKs := runs.filter (fun r =>
    10000 ≤ r.distance ∧ 0 < r.moving_time * 1000 / r.distance)
  let fastest10k := tenKs.foldl (fun best r =>
    let pace := r.moving_time * 1000 / r.distance
    match best with
    | none => some (r, pace)
    | some bp => if bp.2 = 0 ∨ pace < bp.2 then some (r, pace) else best)
    (none : Option (Run × ℚ))
  let mostElevation := runs.foldl (fun acc r =>
    if (match acc with | none => (0 : ℚ) | some _ => 0) < r.total_elevation_gain.getD 0
    then some r else acc) (none : Option Run)
  { longest_distance := longest.map (fun r => (r.distance / 1000, r.start_date_local))
    fastest_5k := fastest5k.map (fun bp =>
      (formatPace (bp.1.moving_time * 1000 / 5000 * 5), bp.1.start_date_local))
    fastest_10k := fastest10k.map (fun bp =>
      (formatPace (bp.1.moving_time * 1000 / 10000 * 10), bp.1.start_date_local))
    most_elevation := mostElevation.map (fun r =>
      (jround (r.total_elevation_gain.getD 0), r.start_date_local)) }

/-- A location cluster row (the `label` string merely renders the pair and is
abstracted away). -/
structure LocationCluster where
  lat : ℚ
  lon : ℚ
  run_count : ℕ
  total_distance : ℚ
  avg_distance : ℚ
deriving DecidableEq

/-- SQLite `ROUND(x, 4)`: round half away from zero at 4 decimal places. -/
def sqlRound4 (q : ℚ) : ℚ :=
  (if 0 ≤ q then (⌊q * 10000 + 1/2⌋ : ℚ) else -(⌊-q * 10000 + 1/2⌋ : ℚ)) / 10000

/-- `DatabaseService.getLocationClusters`: group runs with start coordinates
by their latitude and longitude rounded to 4 decimal places, aggregate count,
total and average distance, and order by count descending.  The
`radiusMeters` parameter appears in the signature (default 1000) but the SQL
never references it. -/
def getLocationClusters (radiusMeters : ℚ) (runs : List Run) : List LocationCluster :=
  let located := runs.filterMap (fun r =>
    match r.latitude_start, r.longitude_start with
    | some la, some lo => some (sqlRound4 la, sqlRound4 lo, r.distance)
    | _, _ => none)
  let keys := (located.map (fun x => (x.1, x.2.1))).dedup
  let rows := keys.map (fun k =>
    let group := located.filter (fun x => (x.1, x.2.1) = k)
    { lat := k.1
      lon := k.2
      run_count := group.length
      total_distance := (group.map (fun x => x.2.2)).sum
      avg_distance :=
        if group.length = 0 then 0
        else (group.map (fun x => x.2.2)).sum / group.length : LocationCluster })
  sortBy (fun a b => b.run_count ≤ a.run_count) rows

/-- `StatsService.getByLocation`: passes its optional `radiusMeters` through
to `getLocationClusters` (whose declared default is 1000). -/
def getByLocation (radiusMeters : Option ℚ) (runs : List Run) : List LocationCluster :=
  getLocationClusters (radiusMeters.getD 1000) runs

/-- Milliseconds in a calendar day, the step of the streak computations. -/
def dayMs : ℤ := 86400000

/-- The distinct activity dates as the source materialises them:
`Array.from(set).sort()` — deduplicate, then sort ascending. -/
def sortedDatesOf (dates : List ℤ) : List ℤ :=
  sortBy (fun a b => a ≤ b) dates.dedup

/-- The `while (set.has(check))` loop of the current-streak computation,
with explicit fuel (the loop visits pairwise-distinct set members, so any
fuel beyond the number of distinct dates is enough). -/
def streakLoop (dates : List ℤ) : ℕ → ℤ → ℕ
  | 0, _ => 0
  | fuel + 1, check =>
    if check ∈ dates then streakLoop dates fuel (check - dayMs) + 1 else 0

/-- Current streak: from the most recent date of the (windowed) date set,
count backward day by day while each date is still in the set. -/
def currentStreakOf (dates : List ℤ) : ℕ :=
  match (sortedDatesOf dates).getLast? with
  | none => 0
  | some m => streakLoop dates ((sortedDatesOf dates).length + 1) m

/-- The running fold of the longest-streak scan: `prev` is the previous date,
`longest` the best completed streak so far, `temp` the length of the run in
progress. -/
def lsGo (prev : ℤ) (longest temp : ℕ) : List ℤ → ℕ
  | [] => max longest temp
  | curr :: rest =>
    if curr - prev = dayMs then lsGo curr longest (temp + 1) rest
    else lsGo curr (max longest temp) 1 rest

/-- Longest streak over a sorted distinct date list: scan for maximal runs of
consecutive (exactly one day apart) entries and keep the longest. -/
def longestStreakOf : List ℤ → ℕ
  | [] => 0
  | h :: t => lsGo h 0 1 t

/-- Length of the chain of consecutive-day successors of `p` at the front of
the list (spec-side helper). -/
def chainFrom (p : ℤ) : List ℤ → ℕ
  | [] => 0
  | c :: rest => if c - p = dayMs then chainFrom c rest + 1 else 0

/-- The spec's description of the longest streak: the maximum length of a run
of entries of the sequence in which consecutive entries differ by exactly one
calendar day. -/
def specMaxRun : List ℤ → ℕ
  | [] => 0
  | h :: t => max (chainFrom h t + 1) (specMaxRun t)

/-- Output of `DatabaseService.getConsistencyStats`. -/
structure ConsistencyStats where
  period_days : ℤ
  runs_in_period : ℕ
  current_streak : ℕ
  longest_streak : ℕ
  avg_runs_per_week : ℚ
  days_since_last_run : ℤ
deriving DecidableEq

/-- `DatabaseService.getConsistencyStats`.  The SQL layer is the boundary:
`countInPeriod` is the activity count inside the lookback window,
`periodDates` the (not yet deduplicated) midnight timestamps of activity
dates inside the window, `allDates` the all-time ones (runs plus parkrun
results when enabled, exactly as fetched), and `nowMs` the current time. -/
def getConsistencyStats (days : ℤ) (nowMs : ℤ) (countInPeriod : ℕ)
    (periodDates allDates : List ℤ) : ConsistencyStats :=
  let allTimeSorted := sortedDatesOf allDates
  { period_days := days
    runs_in_period := countInPeriod
    current_streak := currentStreakOf periodDates
    longest_streak := longestStreakOf allTimeSorted
    avg_runs_per_week :=
      jroundQ ((countInPeriod : ℚ) / ((days : ℚ) / 7) * 10) / 10
    days_since_last_run :=
      match allTimeSorted.getLast? with
      | none => days
      | some lastActivity => (nowMs - lastActivity).fdiv dayMs }

/-- Run types emitted by the scheduler (source union
`'easy' | 'long' | 'tempo' | 'rest' | 'parkrun'`). -/
inductive RunType
  | easy
  | long
  | tempo
  | rest
  | parkrun
deriving DecidableEq

/-- The note strings of recommended runs, abstracted by constructor; the tempo
note interpolates `Math.round(distance)`. -/
inductive NoteText
  | longNote
  | tempoNote (k : ℚ)
  | easyNote
  | restNote
  | parkrunNote
deriving DecidableEq

/-- A recommended run; `date` is a day index (the `toISOString` date part). -/
structure RecommendedRun where
  date : ℤ
  type : RunType
  distance : Option ℚ
  duration : Option ℚ
  notes : NoteText
deriving DecidableEq

/-- One week of the plan. -/
structure WeeklyRecommendation where
  weekStart : ℤ
  targetDistance : ℚ
  runs : List RecommendedRun
deriving DecidableEq

/-- `currentStats.last4Weeks` entry. -/
structure WeekSnapshot where
  week : ℤ
  distance : ℚ
  runs : ℕ
deriving DecidableEq

/-- `currentStats` of the response. -/
structure CurrentStats where
  weeklyAverage : ℚ
  currentRunsPerWeek : ℚ
  last4Weeks : List WeekSnapshot
deriving DecidableEq

/-- The rationale string, abstracted by the data it interpolates:
the 1-decimal weekly average, the 1-decimal runs per week, the preferred run
days, and whether the parkrun sentence is appended. -/
structure RationaleData where
  weeklyAverage1dp : ℚ
  runsPerWeek1dp : ℚ
  runDays : List ℤ
  parkrunIncluded : Bool
deriving DecidableEq

/-- `RecommendationService.generate` response. -/
structure RecommendationResponse where
  currentStats : CurrentStats
  recommendations : List WeeklyRecommendation
  rationale : RationaleData
deriving DecidableEq

/-- `getWeekStartDate`: go back `weeksAgo` weeks, then adjust to the Monday of
that (ISO) week: `diff = date - day + (day == 0 ? -6 : 1)`. -/
def getWeekStartDate (date : ℤ) (weeksAgo : ℤ) : ℤ :=
  let d := date - weeksAgo * 7
  let day := jsGetDay d
  d - day + (if day = 0 then -6 else 1)

/-- The runs of the last 56 days (`new Date(start_date_local) >=
eightWeeksAgo`). -/
def recentRunsOf (today : ℤ) (runs : List Run) : List Run :=
  runs.filter (fun r => today - 56 ≤ r.start_date_local)

/-- A weekly bucket of `groupRunsByWeek`. -/
structure WeekBucket where
  weekStart : ℤ
  distance : ℚ
  runs : ℕ
deriving DecidableEq

/-- `groupRunsByWeek`: bucket runs by the Monday of their week, distance in
km, sorted ascending by week start (the source accumulates into an object
keyed by the ISO date string and sorts the entries). -/
def groupRunsByWeek (runs : List Run) : List WeekBucket :=
  let keyOf : Run → ℤ := fun r => getWeekStartDate r.start_date_local 0
  let keys := sortBy (fun a b => a ≤ b) (runs.map keyOf).dedup
  keys.map (fun k =>
    let group := runs.filter (fun r => keyOf r = k)
    { weekStart := k
      distance := (group.map (fun r => r.distance / 1000)).sum
      runs := group.length })

/-- Mean weekly distance (km) over the buckets of the last 8 weeks; 0 with no
recent history. -/
def avgWeeklyDistanceOf (today : ℤ) (runs : List Run) : ℚ :=
  let weeklyData := groupRunsByWeek (recentRunsOf today runs)
  if weeklyData.length = 0 then 0
  else (weeklyData.map (fun w => w.distance)).sum / (weeklyData.length : ℚ)

/-- Mean runs per week over the buckets of the last 8 weeks. -/
def avgRunsPerWeekOf (today : ℤ) (runs : List Run) : ℚ :=
  let weeklyData := groupRunsByWeek (recentRunsOf today runs)
  if weeklyData.length = 0 then 0
  else ((weeklyData.map (fun w => (w.runs : ℚ))).sum) / (weeklyData.length : ℚ)

/-- Count of recent runs on weekday `d` (`dayCounts[day]++`). -/
def dayCountsOf (today : ℤ) (runs : List Run) (d : ℤ) : ℕ :=
  ((recentRunsOf today runs).filter (fun r => jsGetDay r.start_date_local = d)).length

/-- Preferred days: the weekdays carrying at least 20% of the recent runs
(`recentRuns.length || 1` guards the empty case), in ascending weekday order
(the source's `.sort()` on single digits). -/
def preferredDaysOf (today : ℤ) (runs : List Run) : List ℤ :=
  let totalRunsRecent : ℕ :=
    if (recentRunsOf today runs).length = 0 then 1 else (recentRunsOf today runs).length
  (List.map (fun i : ℕ => (i : ℤ)) (List.range 7)).filter
    (fun d => (1/5 : ℚ) ≤ (dayCountsOf today runs d : ℚ) / (totalRunsRecent : ℚ))

/-- The scheduling day pool before the parkrun adjustment: the preferred days
when at least two qualify, else the default Mon/Wed/Fri/Sun. -/
def baseRunDaysOf (today : ℤ) (runs : List Run) : List ℤ :=
  if 2 ≤ (preferredDaysOf today runs).length then preferredDaysOf today runs
  else [1, 3, 5, 0]

/-- The scheduling day pool: with parkrun enabled, Saturday is appended when
missing (`runDays.push(6)`). -/
def runDaysOf (today : ℤ) (runs : List Run) (parkrunEnabled : Bool) : List ℤ :=
  if parkrunEnabled = true ∧ (6 : ℤ) ∉ baseRunDaysOf today runs
  then baseRunDaysOf today runs ++ [6] else baseRunDaysOf today runs

/-- The fixed parkrun distance in km. -/
def parkrunDistance : ℚ := 5

/-- `currentTarget`: the goal if supplied (0 and undefined are falsy), else
the rounded weekly average, floored at 5 km/week. -/
def currentTargetOf (today : ℤ) (runs : List Run) (goalDistance : Option ℚ) : ℚ :=
  let t := jsOr goalDistance (jroundQ (avgWeeklyDistanceOf today runs))
  if t < 5 then 5 else t

/-- Week `w` target: week 0 uses `currentTarget` unmodified; later weeks use
`Math.min(goalDistance || Infinity, Math.round(currentTarget * 1.1^w))`. -/
def weekTargetOf (today : ℤ) (runs : List Run) (goalDistance : Option ℚ)
    (week : ℕ) : ℚ :=
  let currentTarget := currentTargetOf today runs goalDistance
  if week = 0 then currentTarget
  else
    let grown := jroundQ (currentTarget * (11/10 : ℚ) ^ week)
    match goalDistance with
    | some g => if g = 0 then grown else min g grown
    | none => grown

/-- The JS comparator on days: weekend days (0 and 6) order after weekdays,
ties within a class by numeric value. -/
def cmpDays (a b : ℤ) : ℤ :=
  let isWeekendA := a = 0 ∨ a = 6
  let isWeekendB := b = 0 ∨ b = 6
  if isWeekendA ∧ ¬isWeekendB then 1
  else if ¬isWeekendA ∧ isWeekendB then -1
  else a - b

/-- `le` form of `cmpDays` for the stable sort. -/
def dayLe (a b : ℤ) : Bool := decide (cmpDays a b ≤ 0)

/-- `estimateDuration`: minutes at 6.0 min/km for easy (and long) runs,
5.0 min/km for tempo runs, rounded. -/
def estimateDuration (distanceKM : ℚ) (t : RunType) : ℚ :=
  let paceMinutesPerKm : ℚ := if t = RunType.easy then 6 else 5
  jroundQ (distanceKM * paceMinutesPerKm)

/-- The long-run day: the first weekend day of the sorted pool, with the JS
falsiness quirk that a found Sunday (0) falls through to the first pool
element (`find(...) || availableDays[0]`). -/
def longRunDayOf (h : ℤ) (t : List ℤ) : ℤ :=
  match (h :: t).find? (fun d => d = 0 ∨ d = 6) with
  | some d => if d = 0 then h else d
  | none => h

/-- The per-week schedule entries (day, run type) before date materialisation;
a `none` day is JS `undefined` (an empty remaining pool leaves `tempoDay`
undefined). -/
def scheduleOf (availableDays : List ℤ) (effectiveTarget : ℚ) :
    List (Option ℤ × RunType) :=
  match availableDays with
  | [] => []
  | h :: t =>
    let longRunDay := longRunDayOf h t
    let remainingDays := (h :: t).filter (fun d => d ≠ longRunDay)
    let tempoDay : Option ℤ := jsOrDay
      (remainingDays.find? (fun d =>
        let daysDiff : ℤ := |d - longRunDay|
        2 ≤ min daysDiff (7 - daysDiff)))
      remainingDays.head?
    let otherDays := remainingDays.filter (fun d => some d ≠ tempoDay)
    let easyDays := otherDays.take (max 2 (jround (effectiveTarget / 8))).toNat
    (some longRunDay, RunType.long) :: (tempoDay, RunType.tempo) ::
      easyDays.map (fun d => (some d, RunType.easy))

/-- Materialise one schedule entry: an `undefined` day makes the `Date`
invalid and `toISOString()` throw a `RangeError`; otherwise the run date is
`weekMonday + (day + 6) % 7` and distance/duration/notes follow the run
type (long 25%, tempo 15%, easy 30% capped at 10 km). -/
def buildScheduled (weekMonday : ℤ) (effectiveTarget : ℚ)
    (e : Option ℤ × RunType) : Except String RecommendedRun :=
  match e.1 with
  | none => .error "RangeError: Invalid time value"
  | some d =>
    let offset := (d + 6) % 7
    let runDate := weekMonday + offset
    match e.2 with
    | RunType.long =>
      let dist := jroundQ (effectiveTarget * (25/100))
      .ok { date := runDate, type := RunType.long, distance := some dist
            duration := some (estimateDuration dist RunType.easy)
            notes := NoteText.longNote }
    | RunType.tempo =>
      let dist := jroundQ (effectiveTarget * (15/100))
      .ok { date := runDate, type := RunType.tempo, distance := some dist
            duration := some (estimateDuration dist RunType.tempo)
            notes := NoteText.tempoNote (jroundQ dist) }
    | RunType.easy =>
      let dist := min (jroundQ (effectiveTarget * (30/100))) 10
      .ok { date := runDate, type := RunType.easy, distance := some dist
            duration := some (estimateDuration dist RunType.easy)
            notes := NoteText.easyNote }
    | _ =>
      .ok { date := runDate, type := e.2, distance := none, duration := none
            notes := NoteText.restNote }

/-- The week target net of the parkrun distance (clamped at 0) when parkrun
is enabled, used for the long/tempo/easy distance assignment. -/
def effectiveTargetOf (today : ℤ) (runs : List Run) (parkrunEnabled : Bool)
    (goalDistance : Option ℚ) (week : ℕ) : ℚ :=
  let weekTarget := weekTargetOf today runs goalDistance week
  if parkrunEnabled = true then
    let t := weekTarget - parkrunDistance
    if t < 0 then 0 else t
  else weekTarget

/-- The assignable-day pool: the run days minus Saturday when parkrun is
enabled. -/
def effectiveRunDaysOf (today : ℤ) (runs : List Run) (parkrunEnabled : Bool) :
    List ℤ :=
  let runDays := runDaysOf today runs parkrunEnabled
  if parkrunEnabled = true then runDays.filter (fun d => d ≠ 6) else runDays

/-- The explicit parkrun entry of a week (scheduled on `weekMonday + 5`,
Saturday), when parkrun is enabled. -/
def parkrunRunOf (parkrunEnabled : Bool) (weekMonday : ℤ) :
    Option RecommendedRun :=
  if parkrunEnabled = true then
    some { date := weekMonday + 5, type := RunType.parkrun
           distance := some parkrunDistance
           duration := some (jroundQ (parkrunDistance * 6))
           notes := NoteText.parkrunNote }
  else none

/-- One week of `generate`: compute the week target and Monday, subtract the
parkrun distance and drop Saturday from the pool when parkrun is enabled,
schedule long/tempo/easy runs over the weekend-last sorted pool, append the
parkrun entry, and sort the week's runs by date. -/
def genWeek (today : ℤ) (runs : List Run) (parkrunEnabled : Bool)
    (goalDistance : Option ℚ) (week : ℕ) : Except String WeeklyRecommendation :=
  let weekMonday := getWeekStartDate today (week : ℤ)
  let effectiveTarget := effectiveTargetOf today runs parkrunEnabled goalDistance week
  let effectiveRunDays := effectiveRunDaysOf today runs parkrunEnabled
  let scheduled :=
    if 0 < effectiveRunDays.length then
      mapME (buildScheduled weekMonday effectiveTarget)
        (scheduleOf (sortBy dayLe effectiveRunDays) effectiveTarget)
    else .ok []
  match scheduled with
  | .error e => .error e
  | .ok weekRuns =>
    let withParkrun := weekRuns ++
      (match parkrunRunOf parkrunEnabled weekMonday with | some p => [p] | none => [])
    .ok { weekStart := weekMonday
          targetDistance := weekTargetOf today runs goalDistance week
          runs := sortBy (fun a b => a.date ≤ b.date) withParkrun }

/-- `RecommendationService.generate` (the parkrun-aware revision): the weekly
plans for weeks 0 .. weeksAhead-1, plus current stats and the rationale. -/
def generate (today : ℤ) (runs : List Run) (parkrunEnabled : Bool)
    (weeksAhead : ℕ) (goalDistance : Option ℚ) :
    Except String RecommendationResponse :=
  match mapME (genWeek today runs parkrunEnabled goalDistance)
      (List.range weeksAhead) with
  | .error e => .error e
  | .ok recommendations =>
    let weeklyData := groupRunsByWeek (recentRunsOf today runs)
    .ok { currentStats :=
            { weeklyAverage := jroundQ (avgWeeklyDistanceOf today runs * 10) / 10
              currentRunsPerWeek := jroundQ (avgRunsPerWeekOf today runs * 10) / 10
              last4Weeks := (weeklyData.drop (weeklyData.length - 4)).map
                (fun w => { week := w.weekStart
                            distance := jroundQ (w.distance * 10) / 10
                            runs := w.runs }) }
          recommendations := recommendations
          rationale :=
            { weeklyAverage1dp := toFixed1 (avgWeeklyDistanceOf today runs)
              runsPerWeek1dp := toFixed1 (avgRunsPerWeekOf today runs)
              runDays := runDaysOf today runs parkrunEnabled
              parkrunIncluded := parkrunEnabled } }

/-- Result of the `GET /api/recommendations` route handler. -/
inductive RouteResult
  | badRequest (msg : String)
  | serverError
  | okJson (r : RecommendationResponse)
deriving DecidableEq

/-- Whether the route produced a recommendation payload. -/
def RouteResult.producedPlan : RouteResult → Bool
  | .okJson _ => true
  | _ => false

/-- The route handler: `weeks = parseInt(req.query.weeks) || 4` (`none`
models an absent or unparseable parameter), range checks on `weeks` and on a
supplied `goalDistance`, then `generate`; a thrown generation error becomes
a 500 response. -/
def recommendationsRoute (today : ℤ) (runs : List Run) (parkrunEnabled : Bool)
    (weeksParam : Option ℤ) (goalParam : Option ℚ) : RouteResult :=
  let weeks := jsOrInt weeksParam 4
  if weeks < 1 ∨ 12 < weeks then .badRequest "Weeks must be between 1 and 12"
  else
    match goalParam with
    | some g =>
      if g < 5 ∨ 200 < g then
        .badRequest "Goal distance must be between 5 and 200 km per week"
      else
        match generate today runs parkrunEnabled weeks.toNat (some g) with
        | .ok r => .okJson r
        | .error _ => .serverError
    | none =>
      match generate today runs parkrunEnabled weeks.toNat none with
      | .ok r => .okJson r
      | .error _ => .serverError

/-- Concrete input: a single 20 km run in 100 minutes on a Monday (day 19996)
inside the 8-week window of "today" = day 20000, giving a weekly average of
exactly 20 km over exactly one bucket. -/
def run20k : Run :=
  { start_date_local := 19996, distance := 20000, moving_time := 6000,
    average_speed := none, total_elevation_gain := none,
    latitude_start := none, longitude_start := none }

/-- Concrete input: a run on a Monday (day 19996). -/
def runMon : Run :=
  { start_date_local := 19996, distance := 5000, moving_time := 1500,
    average_speed := none, total_elevation_gain := none,
    latitude_start := none, longitude_start := none }

/-- Concrete input: a run on a Saturday (day 20001). -/
def runSat : Run :=
  { start_date_local := 20001, distance := 5000, moving_time := 1500,
    average_speed := none, total_elevation_gain := none,
    latitude_start := none, longitude_start := none }

/-- Concrete input: a 6 km run in 30 minutes (pace 300 s/km). -/
def run6k : Run :=
  { start_date_local := 100, distance := 6000, moving_time := 1800,
    average_speed := none, total_elevation_gain := none,
    latitude_start := none, longitude_start := none }

/-- Concrete input: a 12 km run in 60 minutes (pace 300 s/km). -/
def run12k : Run :=
  { start_date_local := 200, distance := 12000, moving_time := 3600,
    average_speed := none, total_elevation_gain := none,
    latitude_start := none, longitude_start := none }

/-- Concrete input: a 2 km run in 10 minutes (pace 300 s/km). -/
def runPace : Run :=
  { start_date_local := 100, distance := 2000, moving_time := 600,
    average_speed := none, total_elevation_gain := none,
    latitude_start := none, longitude_start := none }

/-- Concrete input: one parkrun result with finish time 25:00. -/
def prOne : ParkrunResult := { finish_time := [25, 0] }

/-- Concrete input: activity dates on days 0, 1, 2 and (after a one-day gap)
4, 5, 6, as midnight millisecond timestamps. -/
def streakDates : List ℤ := [0, 1, 2, 4, 5, 6].map (fun d => d * dayMs)

/-- The spec's base target: `goal_weekly_km` if supplied, else the rounded
weekly average, floored at a minimum of 5 km/week. -/
def specBaseTarget (today : ℤ) (runs : List Run) (goal : Option ℚ) : ℚ :=
  max (match goal with
    | some g => g
    | none => jroundQ (avgWeeklyDistanceOf today runs)) 5

/-- The spec's week-`w` target: the base target unmodified at week 0, and
`min(goal or ∞, round(base * 1.1^w))` afterwards. -/
def specWeekTarget (today : ℤ) (runs : List Run) (goal : Option ℚ) (w : ℕ) : ℚ :=
  if w = 0 then specBaseTarget today runs goal
  else
    match goal with
    | some g => min g (jroundQ (specBaseTarget today runs goal * (11/10 : ℚ) ^ w))
    | none => jroundQ (specBaseTarget today runs goal * (11/10 : ℚ) ^ w)

/-- The list of weekly targets of a generation result (empty on error);
a projection used to state concrete examples. -/
def targetsOf (x : Except String RecommendationResponse) : List ℚ :=
  match x with
  | .ok r => r.recommendations.map (fun wk => wk.targetDistance)
  | .error _ => []

/-- The per-week (weekday, type, distance) triples of a generation result
(empty on error); a projection used to state concrete examples. -/
def weekSummaryOf (x : Except String RecommendationResponse) :
    List (List (ℤ × RunType × Option ℚ)) :=
  match x with
  | .ok r => r.recommendations.map (fun wk =>
      wk.runs.map (fun ru => (jsGetDay ru.date, ru.type, ru.distance)))
  | .error _ => []

/-- Inserting preserves the multiset of elements. -/
theorem insertLe_perm (le : α → α → Bool) (x : α) (l : List α) :
    (insertLe le x l).Perm (x :: l) := by
  induction l with
  | nil => simp [insertLe]
  | cons y ys ih =>
    simp only [insertLe]
    by_cases h : le y x = true
    · simp only [h, if_true]
      exact ((ih.cons y).trans (List.Perm.swap x y ys)).symm.symm
    · simp [h]

/-- The fold underlying `sortBy` permutes its input onto the accumulator. -/
theorem sortBy_fold_perm (le : α → α → Bool) (l : List α) :
    ∀ s : List α, (l.foldl (fun s x => insertLe le x s) s).Perm (l ++ s) := by
  induction l with
  | nil => intro s; simp
  | cons x xs ih =>
    intro s
    have h1 := ih (insertLe le x s)
    have h2 : (xs ++ insertLe le x s).Perm (xs ++ x :: s) :=
      List.Perm.append_left xs (insertLe_perm le x s)
    have h3 : (xs ++ x :: s).Perm (x :: (xs ++ s)) := List.perm_middle
    simpa using (h1.trans (h2.trans h3))

/-- `sortBy` is a permutation of its input. -/
theorem sortBy_perm (le : α → α → Bool) (l : List α) : (sortBy le l).Perm l := by
  simpa [sortBy] using sortBy_fold_perm le l []

/-- Membership is preserved by `sortBy`. -/
theorem mem_sortBy {le : α → α → Bool} {l : List α} {a : α} :
    a ∈ sortBy le l ↔ a ∈ l :=
  (sortBy_perm le l).mem_iff

/-- Length is preserved by `sortBy`. -/
theorem length_sortBy (le : α → α → Bool) (l : List α) :
    (sortBy le l).length = l.length :=
  (sortBy_perm le l).length_eq

/-- `countP` is preserved by `sortBy`. -/
theorem countP_sortBy (le : α → α → Bool) (p : α → Bool) (l : List α) :
    (sortBy le l).countP p = l.countP p :=
  (sortBy_perm le l).countP_eq p

/-- Inserting into a `Pairwise`-sorted list keeps it sorted, given a total and
transitive `le`. -/
theorem pairwise_insertLe (le : α → α → Bool)
    (htot : ∀ a b, le a b = true ∨ le b a = true)
    (htrans : ∀ a b c, le a b = true → le b c = true → le a c = true)
    (x : α) (l : List α) (h : l.Pairwise (fun a b => le a b = true)) :
    (insertLe le x l).Pairwise (fun a b => le a b = true) := by
  induction l with
  | nil => simp [insertLe]
  | cons y ys ih =>
    rcases List.pairwise_cons.mp h with ⟨hy, hys⟩
    simp only [insertLe]
    by_cases hle : le y x = true
    · simp only [hle, if_true]
      refine List.pairwise_cons.mpr ⟨?_, ih hys⟩
      intro a ha
      rcases List.mem_cons.mp ((insertLe_perm le x ys).mem_iff.mp ha) with ha | ha
      · subst ha; exact hle
      · exact hy a ha
    · simp only [hle, if_false]
      refine List.pairwise_cons.mpr ⟨?_, h⟩
      intro a ha
      have hxy : le x y = true := by
        rcases htot x y with h1 | h1
        · exact h1
        · exact absurd h1 hle
      rcases List.mem_cons.mp ha with ha | ha
      · subst ha; exact hxy
      · exact htrans x y a hxy (hy a ha)

/-- `sortBy` sorts, given a total and transitive `le`. -/
theorem pairwise_sortBy (le : α → α → Bool)
    (htot : ∀ a b, le a b = true ∨ le b a = true)
    (htrans : ∀ a b c, le a b = true → le b c = true → le a c = true)
    (l : List α) : (sortBy le l).Pairwise (fun a b => le a b = true) := by
  have key : ∀ (l s : List α), s.Pairwise (fun a b => le a b = true) →
      (l.foldl (fun s x => insertLe le x s) s).Pairwise (fun a b => le a b = true) := by
    intro l
    induction l with
    | nil => intro s hs; simpa using hs
    | cons x xs ih =>
      intro s hs
      exact ih (insertLe le x s) (pairwise_insertLe le htot htrans x s hs)
  simpa [sortBy] using key l [] (by simp)

/-- In a `Pairwise`-sorted list the last element dominates every element. -/
theorem pairwise_getLast? {P : α → α → Prop} {l : List α} (h : l.Pairwise P)
    {m : α} (hm : l.getLast? = some m) : ∀ x ∈ l, x = m ∨ P x m := by
  induction l with
  | nil => simp at hm
  | cons a t ih =>
    rcases List.pairwise_cons.mp h with ⟨ha, ht⟩
    intro x hx
    cases t with
    | nil =>
      simp only [List.getLast?_singleton, Option.some.injEq] at hm
      rcases List.mem_cons.mp hx with hx | hx
      · left; rw [hx, hm]
      · simp at hx
    | cons b t2 =>
      have hm2 : (b :: t2).getLast? = some m := by
        simpa [List.getLast?_cons_cons] using hm
      have hmem : m ∈ b :: t2 := by
        obtain ⟨hne, heq⟩ := List.mem_getLast?_eq_getLast (Option.mem_def.mpr hm2)
        rw [heq]
        exact List.getLast_mem hne
      rcases List.mem_cons.mp hx with hx | hx
      · right
        rw [hx]
        exact ha m hmem
      · exact ih ht hm2 x hx

/-- A successful `mapME` has the same length and maps index-wise. -/
theorem mapME_ok_get {f : α → Except ε β} :
    ∀ {l : List α} {ys : List β}, mapME f l = .ok ys →
      ys.length = l.length ∧
      ∀ (i : ℕ) (y : β), ys[i]? = some y → ∃ x, l[i]? = some x ∧ f x = .ok y := by
  intro l
  induction l with
  | nil =>
    intro ys h
    simp only [mapME] at h
    cases h
    simp
  | cons x xs ih =>
    intro ys h
    simp only [mapME] at h
    cases hfx : f x with
    | error e => rw [hfx] at h; cases h
    | ok y =>
      rw [hfx] at h
      cases hrest : mapME f xs with
      | error e => rw [hrest] at h; cases h
      | ok ys2 =>
        rw [hrest] at h
        cases h
        rcases ih hrest with ⟨hlen, hget⟩
        constructor
        · simp [hlen]
        · intro i z hz
          cases i with
          | zero =>
            simp only [List.getElem?_cons_zero, Option.some.injEq] at hz
            exact ⟨x, by simp, by rw [← hz]; exact hfx⟩
          | succ j =>
            simp only [List.getElem?_cons_succ] at hz ⊢
            exact hget j z hz

/-- Every element of a successful `mapME` output comes from an input element. -/
theorem mapME_ok_mem {f : α → Except ε β} {l : List α} {ys : List β}
    (h : mapME f l = .ok ys) : ∀ y ∈ ys, ∃ x ∈ l, f x = .ok y := by
  induction l generalizing ys with
  | nil =>
    simp only [mapME] at h
    cases h
    simp
  | cons x xs ih =>
    simp only [mapME] at h
    cases hfx : f x with
    | error e => rw [hfx] at h; cases h
    | ok y =>
      rw [hfx] at h
      cases hrest : mapME f xs with
      | error e => rw [hrest] at h; cases h
      | ok ys2 =>
        rw [hrest] at h
        cases h
        intro z hz
        rcases List.mem_cons.mp hz with hz | hz
        · exact ⟨x, List.mem_cons_self x xs, by rw [hz]; exact hfx⟩
        · rcases ih hrest z hz with ⟨w, hw, hfw⟩
          exact ⟨w, List.mem_cons_of_mem x hw, hfw⟩

/-- `mapME` succeeds when every element succeeds. -/
theorem mapME_ok_of_forall {f : α → Except ε β} {l : List α}
    (h : ∀ x ∈ l, ∃ y, f x = .ok y) : ∃ ys, mapME f l = .ok ys := by
  induction l with
  | nil => exact ⟨[], rfl⟩
  | cons x xs ih =>
    rcases h x (List.mem_cons_self x xs) with ⟨y, hy⟩
    rcases ih (fun z hz => h z (List.mem_cons_of_mem x hz)) with ⟨ys, hys⟩
    exact ⟨y :: ys, by simp [mapME, hy, hys]⟩

/-- Every date the current-streak loop counts is in the date set. -/
theorem streakLoop_mem (dates : List ℤ) :
    ∀ (fuel : ℕ) (start : ℤ) (i : ℕ), i < streakLoop dates fuel start →
      start - i * dayMs ∈ dates := by
  intro fuel
  induction fuel with
  | zero => intro start i h; simp [streakLoop] at h
  | succ n ih =>
    intro start i h
    simp only [streakLoop] at h
    by_cases hmem : start ∈ dates
    · rw [if_pos hmem] at h
      cases i with
      | zero => simpa using hmem
      | succ j =>
        have hj : j < streakLoop dates n (start - dayMs) := by omega
        have := ih (start - dayMs) j hj
        have harith : start - dayMs - j * dayMs = start - (j + 1) * dayMs := by ring
        rw [harith] at this
        simpa using this
    · rw [if_neg hmem] at h
      omega

/-- The current-streak loop never counts past its fuel. -/
theorem streakLoop_le_fuel (dates : List ℤ) :
    ∀ (fuel : ℕ) (start : ℤ), streakLoop dates fuel start ≤ fuel := by
  intro fuel
  induction fuel with
  | zero => intro start; simp [streakLoop]
  | succ n ih =>
    intro start
    simp only [streakLoop]
    by_cases hmem : start ∈ dates
    · rw [if_pos hmem]
      have := ih (start - dayMs)
      omega
    · rw [if_neg hmem]; omega

/-- If the loop stops strictly before exhausting the fuel, the day after the
counted streak is absent from the date set. -/
theorem streakLoop_stop (dates : List ℤ) :
    ∀ (fuel : ℕ) (start : ℤ), streakLoop dates fuel start < fuel →
      start - (streakLoop dates fuel start) * dayMs ∉ dates := by
  intro fuel
  induction fuel with
  | zero => intro start h; omega
  | succ n ih =>
    intro start h
    simp only [streakLoop] at h ⊢
    by_cases hmem : start ∈ dates
    · rw [if_pos hmem] at h ⊢
      have hlt : streakLoop dates n (start - dayMs) < n := by omega
      have := ih (start - dayMs) hlt
      have harith : start - dayMs - (streakLoop dates n (start - dayMs)) * dayMs =
          start - (streakLoop dates n (start - dayMs) + 1) * dayMs := by ring
      rw [harith] at this
      simpa using this
    · rw [if_neg hmem]
      simpa using hmem

/-- The streak counted from any start is at most the number of distinct
dates: the counted days form an injective image inside the date set. -/
theorem streakLoop_le_dedup (dates : List ℤ) (fuel : ℕ) (start : ℤ) :
    streakLoop dates fuel start ≤ dates.dedup.length := by
  set n := streakLoop dates fuel start with hn
  have hmem : ∀ i : ℕ, i < n → start - i * dayMs ∈ dates := by
    intro i hi
    exact streakLoop_mem dates fuel start i hi
  have hinj : Function.Injective (fun i : ℕ => start - (i : ℤ) * dayMs) := by
    intro a b hab
    simp only [dayMs] at hab
    omega
  have hsub : (Finset.range n).image (fun i : ℕ => start - (i : ℤ) * dayMs) ⊆
      dates.toFinset := by
    intro z hz
    rcases Finset.mem_image.mp hz with ⟨i, hi, hiz⟩
    rw [List.mem_toFinset, ← hiz]
    exact hmem i (Finset.mem_range.mp hi)
  have hcard := Finset.card_le_card hsub
  rw [Finset.card_image_of_injective _ hinj, Finset.card_range,
    List.card_toFinset] at hcard
  exact hcard

/-- Characterization of `currentStreakOf` on a non-empty date set: writing
`m` for the most recent date (the last of the sorted distinct dates) and `c`
for the computed streak, the `c` days counting back from `m` are all activity
dates and the day before them is not. -/
theorem currentStreakOf_spec (dates : List ℤ) (m : ℤ)
    (hm : (sortedDatesOf dates).getLast? = some m) :
    m ∈ dates ∧ (∀ d ∈ dates, d ≤ m) ∧
    (∀ i : ℕ, i < currentStreakOf dates → m - i * dayMs ∈ dates) ∧
    m - (currentStreakOf dates) * dayMs ∉ dates := by
  have hsortmem : ∀ x, x ∈ sortedDatesOf dates ↔ x ∈ dates := by
    intro x
    rw [sortedDatesOf, mem_sortBy, List.mem_dedup]
  have htot : ∀ a b : ℤ, decide (a ≤ b) = true ∨ decide (b ≤ a) = true := by
    intro a b
    rcases le_total a b with h | h
    · left; exact decide_eq_true h
    · right; exact decide_eq_true h
  have htrans : ∀ a b c : ℤ, decide (a ≤ b) = true → decide (b ≤ c) = true →
      decide (a ≤ c) = true := by
    intro a b c h1 h2
    exact decide_eq_true (le_trans (of_decide_eq_true h1) (of_decide_eq_true h2))
  have hpw := pairwise_sortBy (fun a b : ℤ => decide (a ≤ b)) htot htrans dates.dedup
  have hmmem : m ∈ dates := by
    rw [← hsortmem]
    obtain ⟨hne, heq⟩ := List.mem_getLast?_eq_getLast (Option.mem_def.mpr hm)
    rw [heq]
    exact List.getLast_mem hne
  have hmax : ∀ d ∈ dates, d ≤ m := by
    intro d hd
    have hd2 : d ∈ sortedDatesOf dates := (hsortmem d).mpr hd
    rcases pairwise_getLast? hpw hm d hd2 with h | h
    · exact le_of_eq h
    · exact of_decide_eq_true h
  have hcur : currentStreakOf dates =
      streakLoop dates ((sortedDatesOf dates).length + 1) m := by
    rw [currentStreakOf, hm]
  have hlenk : (sortedDatesOf dates).length = dates.dedup.length := by
    rw [sortedDatesOf, length_sortBy]
  have hlt : streakLoop dates ((sortedDatesOf dates).length + 1) m <
      (sortedDatesOf dates).length + 1 := by
    have := streakLoop_le_dedup dates ((sortedDatesOf dates).length + 1) m
    omega
  refine ⟨hmmem, hmax, ?_, ?_⟩
  · intro i hi
    rw [hcur] at hi
    exact streakLoop_mem dates _ m i hi
  · rw [hcur]
    exact streakLoop_stop dates _ m hlt

/-- `currentStreakOf` is 0 on the empty date set. -/
theorem currentStreakOf_nil : currentStreakOf [] = 0 := rfl

/-- The longest-streak fold in closed form: the best completed streak so far,
the in-progress run extended through the chain at the head, and the best run
of the remainder. -/
theorem lsGo_spec : ∀ (l : List ℤ) (prev : ℤ) (longest temp : ℕ),
    lsGo prev longest temp l =
      max longest (max (temp + chainFrom prev l) (specMaxRun l)) := by
  intro l
  induction l with
  | nil =>
    intro prev longest temp
    simp [lsGo, chainFrom, specMaxRun]
  | cons c rest ih =>
    intro prev longest temp
    simp only [lsGo, chainFrom, specMaxRun]
    by_cases h : c - prev = dayMs
    · rw [if_pos h, if_pos h, ih]
      have h1 : temp + (chainFrom c rest + 1) = temp + 1 + chainFrom c rest := by omega
      rw [h1]
      simp only [Nat.max_def]
      split_ifs <;> omega
    · rw [if_neg h, if_neg h, ih]
      simp only [Nat.add_zero, Nat.max_def]
      split_ifs <;> omega

/-- The source's longest-streak scan equals the spec's "maximum run of
consecutive dates" on every list. -/
theorem longestStreakOf_eq_specMaxRun (l : List ℤ) :
    longestStreakOf l = specMaxRun l := by
  cases l with
  | nil => rfl
  | cons h t =>
    rw [longestStreakOf, lsGo_spec, specMaxRun]
    omega

/-- C6: for every set of activities and lookback window, `current_streak`
starts from the most recent distinct activity date within the window (not
necessarily today) and counts backward while each preceding calendar day is
also an activity date, stopping at the first gap (0 on an empty window);
`longest_streak` is computed over the all-time dates, ignoring the window, as
the maximum length of a run of dates in the sorted distinct-date sequence
whose consecutive entries differ by exactly one calendar day. -/
theorem c6_streak_characterization (days nowMs : ℤ) (cnt : ℕ)
    (periodDates allDates : List ℤ) :
    (periodDates = [] →
      (getConsistencyStats days nowMs cnt periodDates allDates).current_streak = 0) ∧
    (∀ m, (sortedDatesOf periodDates).getLast? = some m →
      m ∈ periodDates ∧ (∀ d ∈ periodDates, d ≤ m) ∧
      (∀ i : ℕ,
        i < (getConsistencyStats days nowMs cnt periodDates allDates).current_streak →
        m - i * dayMs ∈ periodDates) ∧
      m - ((getConsistencyStats days nowMs cnt periodDates allDates).current_streak : ℤ) *
        dayMs ∉ periodDates) ∧
    (getConsistencyStats days nowMs cnt periodDates allDates).longest_streak =
      specMaxRun (sortedDatesOf allDates) := by
  refine ⟨?_, ?_, ?_⟩
  · intro h
    subst h
    rfl
  · intro m hm
    have hcur : (getConsistencyStats days nowMs cnt periodDates allDates).current_streak =
        currentStreakOf periodDates := rfl
    rw [hcur]
    exact currentStreakOf_spec periodDates m hm
  · have hl : (getConsistencyStats days nowMs cnt periodDates allDates).longest_streak =
        longestStreakOf (sortedDatesOf allDates) := rfl
    rw [hl]
    exact longestStreakOf_eq_specMaxRun (sortedDatesOf allDates)

/-- C6 witness: activities on days 0, 1, 2 and (after a gap) 4, 5, 6 give a
current streak of 3 (counting back from day 6) and a longest streak of 3. -/
theorem c6_streak_characterization_example :
    (getConsistencyStats 30 (6 * dayMs) 6 streakDates streakDates).current_streak = 3 ∧
    (getConsistencyStats 30 (6 * dayMs) 6 streakDates streakDates).longest_streak = 3 ∧
    (sortedDatesOf streakDates).getLast? = some (6 * dayMs) ∧
    6 * dayMs - (3 : ℕ) * dayMs ∉ streakDates ∧
    specMaxRun (sortedDatesOf streakDates) = 3 := by
  have hlast : (sortedDatesOf streakDates).getLast? = some (6 * dayMs) := by
    with_unfolding_all rfl
  have hcur : (getConsistencyStats 30 (6 * dayMs) 6 streakDates streakDates).current_streak
      = 3 := by with_unfolding_all rfl
  have hthm := (c6_streak_characterization 30 (6 * dayMs) 6 streakDates streakDates).2.1
    (6 * dayMs) hlast
  have hnot := hthm.2.2.2
  rw [hcur] at hnot
  refine ⟨hcur, ?_, hlast, by exact_mod_cast hnot, by with_unfolding_all rfl⟩
  exact (c6_streak_characterization 30 (6 * dayMs) 6 streakDates streakDates).2.2.trans
    (by with_unfolding_all rfl)

/-- C10: the location-clustering radius/precision argument has no effect on
the result — the SQL always rounds the start coordinates to 4 decimal places
and never reads the parameter, both through `getByLocation` and directly on
`getLocationClusters`. -/
theorem c10_location_radius_has_no_effect (r1 r2 : Option ℚ) (q1 q2 : ℚ)
    (runs : List Run) :
    getByLocation r1 runs = getByLocation r2 runs ∧
    getLocationClusters q1 runs = getLocationClusters q2 runs :=
  ⟨rfl, rfl⟩

/-- C9: schedule generation is a deterministic function of the activity
snapshot, "today", and the parameters: two invocations on identical inputs
produce identical output (same targets, dates, types, distances, durations,
notes and rationale). -/
theorem c9_generate_deterministic (today1 today2 : ℤ) (runs1 runs2 : List Run)
    (pe1 pe2 : Bool) (w1 w2 : ℕ) (g1 g2 : Option ℚ)
    (ht : today1 = today2) (hr : runs1 = runs2) (hp : pe1 = pe2)
    (hw : w1 = w2) (hg : g1 = g2) :
    generate today1 runs1 pe1 w1 g1 = generate today2 runs2 pe2 w2 g2 := by
  rw [ht, hr, hp, hw, hg]

/-- C9 witness: the determinism theorem applied at a concrete input. -/
theorem c9_generate_deterministic_example :
    generate 20000 [run20k] false 3 none = generate 20000 [run20k] false 3 none :=
  c9_generate_deterministic 20000 20000 [run20k] [run20k] false false 3 3 none none
    rfl rfl rfl rfl rfl

/-- C1: the fastest-5k (and fastest-10k) record does NOT report the pace
extrapolated to the record distance.  The recorded expression
`moving_time * 1000 / 5000 * 5` divides by the constant 5000 instead of the
activity's distance, so it collapses to the activity's own raw moving time.
For a single 6 km run in 30 minutes the code reports 30:00, while the spec's
linear extrapolation (pace 300 s/km × 5) is 25:00; the 12 km / 60 min run
likewise yields 60:00 instead of the extrapolated 50:00 for the 10k record. -/
theorem c1_fastest5k_reports_raw_time :
    (getPersonalRecords [run6k]).fastest_5k = some ((30, 0), 100) ∧
    formatPace (run6k.moving_time * 1000 / run6k.distance * 5) = (25, 0) ∧
    ((30, 0) : ℤ × ℤ) ≠ ((25, 0) : ℤ × ℤ) ∧
    (getPersonalRecords [run12k]).fastest_10k = some ((60, 0), 200) ∧
    formatPace (run12k.moving_time * 1000 / run12k.distance * 10) = (50, 0) :=
  of_decide_eq_true (by with_unfolding_all rfl)

/-- C4: `generate` is not total.  With parkrun enabled and a history whose
preferred-day pool is exactly Monday and Saturday (one recent run on each,
both carrying 50% ≥ 20% of the recent runs), excluding Saturday leaves a
single assignable day; the tempo-day lookup then yields `undefined`, the run
date becomes an invalid `Date`, and `toISOString()` throws a `RangeError` —
the request surfaces as an internal error instead of a valid plan, although
`weeks_ahead = 4` and the absent goal are within their documented ranges and
the two runs are well-formed. -/
theorem c4_generate_throws_on_two_day_pool :
    generate 20000 [runMon, runSat] true 4 none =
      Except.error "RangeError: Invalid time value" ∧
    preferredDaysOf 20000 [runMon, runSat] = [1, 6] ∧
    effectiveRunDaysOf 20000 [runMon, runSat] true = [1] :=
  ⟨by with_unfolding_all rfl, by with_unfolding_all rfl, by with_unfolding_all rfl⟩

/-- C5 counterexample: requesting `weeks = 0` — a weeks_ahead value outside
[1, 12] — is NOT rejected: `parseInt('0') || 4` silently replaces it by the
default 4 and a recommendation payload is produced. -/
theorem c5_weeks_zero_not_rejected :
    (recommendationsRoute 20000 [] false (some 0) none).producedPlan = true :=
  of_decide_eq_true (by with_unfolding_all rfl)

/-- C5 (amended): a weeks_ahead value outside [1, 12] is rejected with the
caller-visible validation error before any plan computation — except the
value 0, which is falsy and silently replaced by the default 4 — and a
supplied goal_weekly_km outside [5, 200] is rejected likewise (once the weeks
check passed); a rejected request produces no recommendation output. -/
theorem c5_out_of_range_rejected (today : ℤ) (runs : List Run) (pe : Bool)
    (wp : Option ℤ) (gp : Option ℚ) :
    (∀ w, wp = some w → w ≠ 0 → (w < 1 ∨ 12 < w) →
      recommendationsRoute today runs pe wp gp =
        RouteResult.badRequest "Weeks must be between 1 and 12" ∧
      (recommendationsRoute today runs pe wp gp).producedPlan = false) ∧
    (∀ g, gp = some g → (g < 5 ∨ 200 < g) →
      1 ≤ jsOrInt wp 4 → jsOrInt wp 4 ≤ 12 →
      recommendationsRoute today runs pe wp gp =
        RouteResult.badRequest "Goal distance must be between 5 and 200 km per week" ∧
      (recommendationsRoute today runs pe wp gp).producedPlan = false) := by
  constructor
  · intro w hw hw0 hrange
    have hweeks : jsOrInt wp 4 = w := by
      rw [hw, jsOrInt]
      simp [hw0]
    have hcond : jsOrInt wp 4 < 1 ∨ 12 < jsOrInt wp 4 := by
      rw [hweeks]; exact hrange
    have hroute : recommendationsRoute today runs pe wp gp =
        RouteResult.badRequest "Weeks must be between 1 and 12" := by
      unfold recommendationsRoute
      simp only [if_pos hcond]
    exact ⟨hroute, by rw [hroute]; rfl⟩
  · intro g hg hgrange h1 h12
    have hcond : ¬(jsOrInt wp 4 < 1 ∨ 12 < jsOrInt wp 4) := by omega
    have hroute : recommendationsRoute today runs pe wp gp =
        RouteResult.badRequest "Goal distance must be between 5 and 200 km per week" := by
      unfold recommendationsRoute
      simp only [if_neg hcond, hg]
      simp only [if_pos hgrange]
    exact ⟨hroute, by rw [hroute]; rfl⟩

/-- C5 witness: `weeks = 13` is rejected with the weeks validation error, and
`goal = 300` (with valid weeks) is rejected with the goal validation error;
neither produces a plan. -/
theorem c5_out_of_range_rejected_example :
    recommendationsRoute 20000 [] false (some 13) none =
      RouteResult.badRequest "Weeks must be between 1 and 12" ∧
    recommendationsRoute 20000 [] false (some 4) (some 300) =
      RouteResult.badRequest "Goal distance must be between 5 and 200 km per week" ∧
    (recommendationsRoute 20000 [] false (some 13) none).producedPlan = false := by
  have h1 := (c5_out_of_range_rejected 20000 [] false (some 13) none).1 13 rfl
    (by omega) (by omega)
  have h2 := (c5_out_of_range_rejected 20000 [] false (some 4) (some 300)).2 300 rfl
    (by norm_num) (by decide) (by decide)
  exact ⟨h1.1, h2.1, h1.2⟩

/-- A `filterMap` by a guarded `some` is a `map` after a `filter`. -/
theorem filterMap_ite_eq_map_filter (p : α → Prop) [DecidablePred p] (f : α → β)
    (l : List α) :
    l.filterMap (fun x => if p x then some (f x) else none) =
      (l.filter (fun x => decide (p x))).map f := by
  induction l with
  | nil => rfl
  | cons x xs ih =>
    by_cases hx : p x
    · simp only [List.filterMap_cons, List.filter_cons, if_pos hx,
        decide_eq_true hx, List.map_cons, ih]
      simp
    · simp only [List.filterMap_cons, List.filter_cons, if_neg hx,
        decide_eq_false hx, ih]
      simp

/-- Folding the absent parkrun distance into any accumulator yields NaN as
soon as there is at least one result. -/
theorem foldl_prDistance_none (l : List ParkrunResult) (acc : Option ℚ)
    (h : l ≠ []) :
    l.foldl (fun acc pr => jsAdd acc (prDistanceRead pr)) acc = none := by
  induction l generalizing acc with
  | nil => exact absurd rfl h
  | cons x xs ih =>
    have hstep : jsAdd acc (prDistanceRead x) = none := by
      cases acc <;> rfl
    rw [List.foldl_cons, hstep]
    cases xs with
    | nil => rfl
    | cons y ys => exact ih none (by simp)

/-- C7 counterexample: with parkrun folding active, `average_pace_s_per_km`
is not the unweighted mean of per-activity paces.  One 2 km run in 600 s has
(unweighted mean) pace 300 s/km, but folding in a single parkrun result makes
the code recompute the pace distance-weighted from the combined totals, whose
total distance is NaN (parkrun rows have no distance), so the reported
average pace collapses to 0. -/
theorem c7_folded_pace_not_unweighted_mean :
    (getSummary true [runPace] [prOne]).average_pace_seconds = 0 ∧
    specUnweightedMeanPace [runPace] = 300 ∧
    (getSummary false [runPace] []).average_pace_seconds = 300 ∧
    (0 : ℚ) ≠ 300 :=
  of_decide_eq_true (by with_unfolding_all rfl)

/-- C7 (amended): when parkrun results are not folded into the summary
(parkrun disabled, or no results in range), `average_pace_s_per_km` is the
unweighted arithmetic mean of the per-activity paces over the activities
with positive distance and duration — not the distance-weighted pace.  When
parkrun results are folded in, the code instead recomputes the pace as the
distance-weighted `Math.round(total_time / (total_distance / 1000))` over
the combined totals; the combined total distance is NaN because parkrun rows
carry no distance, so the recomputed value is the fallback 0. -/
theorem c7_average_pace_unweighted_unless_folded (pe : Bool) (runs : List Run)
    (parkrunResults : List ParkrunResult)
    (hne : runs.filter (fun r => decide (0 < r.distance ∧ 0 < r.moving_time)) ≠ []) :
    ((pe = false ∨ parkrunResults = []) →
      (getSummary pe runs parkrunResults).average_pace_seconds =
        specUnweightedMeanPace runs) ∧
    (pe = true → parkrunResults ≠ [] →
      (getSummary pe runs parkrunResults).average_pace_seconds = 0) := by
  have hpaces : runs.filterMap (fun r =>
      if 0 < r.distance ∧ 0 < r.moving_time
      then some (r.moving_time * 1000 / r.distance) else none) =
      (runs.filter (fun r => decide (0 < r.distance ∧ 0 < r.moving_time))).map
        (fun r => r.moving_time * 1000 / r.distance) :=
    filterMap_ite_eq_map_filter _ _ runs
  have hstats : (getRunStats runs).average_pace_seconds =
      specUnweightedMeanPace runs := by
    rw [getRunStats, specUnweightedMeanPace]
    simp only [hpaces, List.length_map]
    rw [if_neg (by simpa using fun h => hne (List.length_eq_zero.mp h))]
  constructor
  · intro hcase
    have hcond : ¬(pe = true ∧ 0 < parkrunResults.length) := by
      rcases hcase with h | h
      · rw [h]; simp
      · rw [h]; simp
    rw [getSummary, if_neg hcond]
    exact hstats
  · intro hpe hres
    subst hpe
    have hlen : 0 < parkrunResults.length := List.length_pos.mpr hres
    rw [getSummary, if_pos ⟨rfl, hlen⟩]
    simp only [foldl_prDistance_none parkrunResults (some 0) hres]
    rfl

/-- C7 witness: the amended pace theorem applied at a concrete input — one
2 km / 600 s run (pace 300): unfolded summaries report exactly 300, and the
folded summary reports 0. -/
theorem c7_average_pace_unweighted_unless_folded_example :
    (getSummary false [runPace] [prOne]).average_pace_seconds =
      specUnweightedMeanPace [runPace] ∧
    (getSummary true [runPace] []).average_pace_seconds =
      specUnweightedMeanPace [runPace] ∧
    (getSummary true [runPace] [prOne]).average_pace_seconds = 0 ∧
    specUnweightedMeanPace [runPace] = 300 := by
  have hne : [runPace].filter
      (fun r => decide (0 < r.distance ∧ 0 < r.moving_time)) ≠ [] := by
    with_unfolding_all decide
  refine ⟨?_, ?_, ?_, by with_unfolding_all rfl⟩
  · exact (c7_average_pace_unweighted_unless_folded false [runPace] [prOne] hne).1
      (Or.inl rfl)
  · exact (c7_average_pace_unweighted_unless_folded true [runPace] [] hne).1
      (Or.inr rfl)
  · exact (c7_average_pace_unweighted_unless_folded true [runPace] [prOne] hne).2
      rfl (by simp)

/-- `getDay` is always in [0, 7). -/
theorem jsGetDay_bounds (d : ℤ) : 0 ≤ jsGetDay d ∧ jsGetDay d < 7 := by
  unfold jsGetDay
  omega

/-- The week start computed by `getWeekStartDate` is a Monday. -/
theorem jsGetDay_getWeekStartDate (d w : ℤ) :
    jsGetDay (getWeekStartDate d w) = 1 := by
  simp only [getWeekStartDate, jsGetDay]
  split_ifs <;> omega

/-- Saturday of a week: Monday plus five days. -/
theorem jsGetDay_monday_add_five (m : ℤ) (h : jsGetDay m = 1) :
    jsGetDay (m + 5) = 6 := by
  unfold jsGetDay at h ⊢
  omega

/-- A scheduled run's date offset lands on its weekday: for a day `d` in
[0, 7), `weekMonday + (d + 6) % 7` has weekday `d`. -/
theorem jsGetDay_monday_offset (m d : ℤ) (hm : jsGetDay m = 1)
    (h0 : 0 ≤ d) (h7 : d < 7) : jsGetDay (m + (d + 6) % 7) = d := by
  unfold jsGetDay at hm ⊢
  omega

/-- Preferred days are weekdays in [0, 7). -/
theorem preferredDaysOf_bounds (today : ℤ) (runs : List Run) (d : ℤ)
    (h : d ∈ preferredDaysOf today runs) : 0 ≤ d ∧ d < 7 := by
  simp only [preferredDaysOf] at h
  rcases List.mem_filter.mp h with ⟨hmem, _⟩
  rcases List.mem_map.mp hmem with ⟨i, hi, hid⟩
  have := List.mem_range.mp hi
  omega

/-- Preferred days are distinct. -/
theorem preferredDaysOf_nodup (today : ℤ) (runs : List Run) :
    (preferredDaysOf today runs).Nodup := by
  simp only [preferredDaysOf]
  refine List.Nodup.filter _ ?_
  refine List.Nodup.map ?_ (List.nodup_range 7)
  intro a b hab
  simpa using hab

/-- Pool days are weekdays in [0, 7). -/
theorem baseRunDaysOf_bounds (today : ℤ) (runs : List Run) (d : ℤ)
    (h : d ∈ baseRunDaysOf today runs) : 0 ≤ d ∧ d < 7 := by
  unfold baseRunDaysOf at h
  split_ifs at h with h2
  · exact preferredDaysOf_bounds today runs d h
  · have : d = 1 ∨ d = 3 ∨ d = 5 ∨ d = 0 := by simpa using h
    omega

/-- Pool days are weekdays in [0, 7). -/
theorem runDaysOf_bounds (today : ℤ) (runs : List Run) (pe : Bool) (d : ℤ)
    (h : d ∈ runDaysOf today runs pe) : 0 ≤ d ∧ d < 7 := by
  unfold runDaysOf at h
  split_ifs at h with hif
  · rcases List.mem_append.mp h with h | h
    · exact baseRunDaysOf_bounds today runs d h
    · have : d = 6 := by simpa using h
      omega
  · exact baseRunDaysOf_bounds today runs d h

/-- The pool has no duplicate days. -/
theorem baseRunDaysOf_nodup (today : ℤ) (runs : List Run) :
    (baseRunDaysOf today runs).Nodup := by
  unfold baseRunDaysOf
  split_ifs with h2
  · exact preferredDaysOf_nodup today runs
  · decide

/-- The pool has no duplicate days. -/
theorem runDaysOf_nodup (today : ℤ) (runs : List Run) (pe : Bool) :
    (runDaysOf today runs pe).Nodup := by
  unfold runDaysOf
  split_ifs with hif
  · rcases hif with ⟨_, h6⟩
    simp only [List.nodup_append]
    refine ⟨baseRunDaysOf_nodup today runs, by decide, ?_⟩
    intro a ha hb
    have ha6 : a = 6 := by simpa using hb
    exact h6 (ha6 ▸ ha)
  · exact baseRunDaysOf_nodup today runs

/-- The pool always holds at least two days. -/
theorem baseRunDaysOf_two_le (today : ℤ) (runs : List Run) :
    2 ≤ (baseRunDaysOf today runs).length := by
  unfold baseRunDaysOf
  split_ifs with h2
  · exact h2
  · decide

/-- The pool always holds at least two days. -/
theorem runDaysOf_two_le (today : ℤ) (runs : List Run) (pe : Bool) :
    2 ≤ (runDaysOf today runs pe).length := by
  unfold runDaysOf
  have hbase := baseRunDaysOf_two_le today runs
  split_ifs with hif
  · rw [List.length_append]
    omega
  · exact hbase

/-- Members of the effective pool are pool days, and never Saturday when
parkrun is enabled. -/
theorem effectiveRunDaysOf_mem (today : ℤ) (runs : List Run) (pe : Bool) (d : ℤ)
    (h : d ∈ effectiveRunDaysOf today runs pe) :
    d ∈ runDaysOf today runs pe ∧ (pe = true → d ≠ 6) := by
  simp only [effectiveRunDaysOf] at h
  split_ifs at h with hif
  · rcases List.mem_filter.mp h with ⟨hmem, hd⟩
    exact ⟨hmem, fun _ => by simpa using hd⟩
  · exact ⟨h, fun hpe => absurd hpe hif⟩

/-- The effective pool has no duplicate days. -/
theorem effectiveRunDaysOf_nodup (today : ℤ) (runs : List Run) (pe : Bool) :
    (effectiveRunDaysOf today runs pe).Nodup := by
  simp only [effectiveRunDaysOf]
  split_ifs with hif
  · exact (runDaysOf_nodup today runs pe).filter _
  · exact runDaysOf_nodup today runs pe

/-- Inverting `jsOrDay`: a defined result comes from the found value or from
the fallback. -/
theorem jsOrDay_eq_some (v f : Option ℤ) (d : ℤ) (h : jsOrDay v f = some d) :
    v = some d ∨ f = some d := by
  cases v with
  | none => exact Or.inr h
  | some x =>
    replace h : (if x = 0 then f else some x) = some d := h
    by_cases hx : x = 0
    · rw [if_pos hx] at h
      exact Or.inr h
    · rw [if_neg hx] at h
      rw [← h]
      exact Or.inl rfl

/-- `jsOrDay` with a defined fallback is defined. -/
theorem jsOrDay_some_fallback (v : Option ℤ) (y : ℤ) :
    ∃ d, jsOrDay v (some y) = some d := by
  cases v with
  | none => exact ⟨y, rfl⟩
  | some x =>
    show ∃ d, (if x = 0 then some y else some x) = some d
    by_cases hx : x = 0
    · rw [if_pos hx]; exact ⟨y, rfl⟩
    · rw [if_neg hx]; exact ⟨x, rfl⟩

/-- `jsOrDay` is defined whenever its fallback is. -/
theorem jsOrDay_some_of_fallback_ne (v f : Option ℤ) (hf : f ≠ none) :
    ∃ d, jsOrDay v f = some d := by
  cases f with
  | none => exact absurd rfl hf
  | some y => exact jsOrDay_some_fallback v y

/-- The long-run day is drawn from the pool. -/
theorem longRunDayOf_mem (h : ℤ) (t : List ℤ) : longRunDayOf h t ∈ h :: t := by
  unfold longRunDayOf
  cases hf : (h :: t).find? (fun d => d = 0 ∨ d = 6) with
  | none => exact List.mem_cons_self h t
  | some d =>
    show (if d = 0 then h else d) ∈ h :: t
    by_cases hd : d = 0
    · rw [if_pos hd]; exact List.mem_cons_self h t
    · rw [if_neg hd]; exact List.mem_of_find?_eq_some hf

/-- Every concretely-assigned schedule day is a pool day, and schedule entries
are only of the long, tempo and easy types. -/
theorem scheduleOf_mem (l : List ℤ) (tgt : ℚ) (e : Option ℤ × RunType)
    (he : e ∈ scheduleOf l tgt) :
    (e.2 = RunType.long ∨ e.2 = RunType.tempo ∨ e.2 = RunType.easy) ∧
    (∀ d, e.1 = some d → d ∈ l) := by
  cases l with
  | nil => simp [scheduleOf] at he
  | cons h t =>
    simp only [scheduleOf] at he
    rcases List.mem_cons.mp he with he | he
    · subst he
      exact ⟨Or.inl rfl, fun d hd => by
        cases hd
        exact longRunDayOf_mem h t⟩
    rcases List.mem_cons.mp he with he | he
    · subst he
      refine ⟨Or.inr (Or.inl rfl), fun d hd => ?_⟩
      simp only at hd
      have hsub : ∀ x,
          x ∈ (h :: t).filter (fun d => d ≠ longRunDayOf h t) → x ∈ h :: t := by
        intro x hx
        exact (List.mem_filter.mp hx).1
      rcases jsOrDay_eq_some _ _ _ hd with hv | hv
      · exact hsub _ (List.mem_of_find?_eq_some hv)
      · exact hsub _ (List.mem_of_mem_head? hv)
    · rcases List.mem_map.mp he with ⟨d, hd, hde⟩
      subst hde
      refine ⟨Or.inr (Or.inr rfl), fun x hx => ?_⟩
      cases hx
      have h1 := List.mem_of_mem_take hd
      have h2 := (List.mem_filter.mp h1).1
      exact (List.mem_filter.mp h2).1

/-- A nodup list with at least two elements keeps at least one element after
removing any single value. -/
theorem filter_ne_nonempty (l : List ℤ) (a : ℤ) (hnd : l.Nodup)
    (hlen : 2 ≤ l.length) : l.filter (fun d => d ≠ a) ≠ [] := by
  intro hempty
  have hall : ∀ x ∈ l, x = a := by
    intro x hx
    by_contra hne
    have : x ∈ l.filter (fun d => d ≠ a) :=
      List.mem_filter.mpr ⟨hx, by simpa using hne⟩
    rw [hempty] at this
    simp at this
  cases l with
  | nil => simp at hlen
  | cons x t =>
    cases t with
    | nil => simp at hlen
    | cons y t2 =>
      have hx := hall x (by simp)
      have hy := hall y (by simp)
      have : x ≠ y := by
        rcases List.pairwise_cons.mp hnd with ⟨hxall, _⟩
        exact hxall y (by simp)
      omega

/-- On a duplicate-free pool of at least two days, every schedule entry
carries a concrete day (the tempo fallback `remainingDays[0]` exists). -/
theorem scheduleOf_some (l : List ℤ) (tgt : ℚ) (hnd : l.Nodup)
    (hlen : 2 ≤ l.length) : ∀ e ∈ scheduleOf l tgt, ∃ d, e.1 = some d := by
  cases l with
  | nil => simp at hlen
  | cons h t =>
    intro e he
    simp only [scheduleOf] at he
    rcases List.mem_cons.mp he with he | he
    · subst he; exact ⟨longRunDayOf h t, rfl⟩
    rcases List.mem_cons.mp he with he | he
    · subst he
      have hne : (h :: t).filter (fun d => d ≠ longRunDayOf h t) ≠ [] :=
        filter_ne_nonempty (h :: t) (longRunDayOf h t) hnd hlen
      have hsome : ((h :: t).filter (fun d => d ≠ longRunDayOf h t)).head? ≠ none := by
        intro hnone
        exact hne (List.head?_eq_none_iff.mp hnone)
      exact jsOrDay_some_of_fallback_ne _ _ hsome
    · rcases List.mem_map.mp he with ⟨d, _, hde⟩
      subst hde
      exact ⟨d, rfl⟩

/-- `buildScheduled` on a concrete day always succeeds, and its result keeps
the entry's type, places the run at `weekMonday + (day + 6) % 7`, and assigns
the long/tempo/easy distances from the effective target. -/
theorem buildScheduled_ok (M : ℤ) (ET : ℚ) (d : ℤ) (ty : RunType) :
    ∃ r, buildScheduled M ET (some d, ty) = .ok r ∧
      r.date = M + (d + 6) % 7 ∧ r.type = ty ∧
      (ty = RunType.long → r.distance = some (jroundQ (ET * (25/100)))) ∧
      (ty = RunType.tempo → r.distance = some (jroundQ (ET * (15/100)))) ∧
      (ty = RunType.easy → r.distance = some (min (jroundQ (ET * (30/100))) 10)) := by
  cases ty with
  | long =>
    refine ⟨_, rfl, rfl, rfl, ?_, ?_, ?_⟩
    · intro _; rfl
    · intro h; cases h
    · intro h; cases h
  | tempo =>
    refine ⟨_, rfl, rfl, rfl, ?_, ?_, ?_⟩
    · intro h; cases h
    · intro _; rfl
    · intro h; cases h
  | easy =>
    refine ⟨_, rfl, rfl, rfl, ?_, ?_, ?_⟩
    · intro h; cases h
    · intro h; cases h
    · intro _; rfl
  | rest =>
    refine ⟨_, rfl, rfl, rfl, ?_, ?_, ?_⟩
    · intro h; cases h
    · intro h; cases h
    · intro h; cases h
  | parkrun =>
    refine ⟨_, rfl, rfl, rfl, ?_, ?_, ?_⟩
    · intro h; cases h
    · intro h; cases h
    · intro h; cases h

/-- Inverting a successful `genWeek`: the week start, the target, and the
runs list as the date-sorted concatenation of the scheduled runs (a
successful `mapME` over the schedule) and the optional parkrun entry. -/
theorem genWeek_ok_parts (today : ℤ) (runs : List Run) (pe : Bool)
    (goal : Option ℚ) (week : ℕ) (wk : WeeklyRecommendation)
    (h : genWeek today runs pe goal week = .ok wk) :
    wk.weekStart = getWeekStartDate today (week : ℤ) ∧
    wk.targetDistance = weekTargetOf today runs goal week ∧
    ∃ weekRuns,
      (if 0 < (effectiveRunDaysOf today runs pe).length then
        mapME (buildScheduled (getWeekStartDate today (week : ℤ))
            (effectiveTargetOf today runs pe goal week))
          (scheduleOf (sortBy dayLe (effectiveRunDaysOf today runs pe))
            (effectiveTargetOf today runs pe goal week))
       else .ok []) = .ok weekRuns ∧
      wk.runs = sortBy (fun a b => a.date ≤ b.date) (weekRuns ++
        (match parkrunRunOf pe (getWeekStartDate today (week : ℤ)) with
         | some p => [p] | none => [])) := by
  simp only [genWeek] at h
  split at h
  · cases h
  · rename_i weekRuns heq
    cases h
    exact ⟨rfl, rfl, weekRuns, heq, rfl⟩

/-- `genWeek` succeeds whenever the effective pool does not have exactly one
day. -/
theorem genWeek_ok_of_ne_one (today : ℤ) (runs : List Run) (pe : Bool)
    (goal : Option ℚ) (week : ℕ)
    (hpool : (effectiveRunDaysOf today runs pe).length ≠ 1) :
    ∃ wk, genWeek today runs pe goal week = .ok wk := by
  set pool := sortBy dayLe (effectiveRunDaysOf today runs pe) with hpool_def
  by_cases hzero : 0 < (effectiveRunDaysOf today runs pe).length
  · have hlen2 : 2 ≤ pool.length := by
      rw [hpool_def, length_sortBy]
      omega
    have hnd : pool.Nodup :=
      ((sortBy_perm dayLe (effectiveRunDaysOf today runs pe)).nodup_iff).mpr
        (effectiveRunDaysOf_nodup today runs pe)
    have hall := scheduleOf_some pool (effectiveTargetOf today runs pe goal week)
      hnd hlen2
    have hok : ∀ e ∈ scheduleOf pool (effectiveTargetOf today runs pe goal week),
        ∃ r, buildScheduled (getWeekStartDate today (week : ℤ))
          (effectiveTargetOf today runs pe goal week) e = .ok r := by
      intro e he
      rcases hall e he with ⟨d, hd⟩
      rcases buildScheduled_ok (getWeekStartDate today (week : ℤ))
        (effectiveTargetOf today runs pe goal week) d e.2 with ⟨r, hr, _⟩
      refine ⟨r, ?_⟩
      have he2 : e = (some d, e.2) := by
        cases e
        simp only at hd ⊢
        rw [hd]
      rw [he2]
      exact hr
    rcases mapME_ok_of_forall hok with ⟨ys, hys⟩
    cases hgw : genWeek today runs pe goal week with
    | ok wk => exact ⟨wk, rfl⟩
    | error e =>
      simp only [genWeek, if_pos hzero, ← hpool_def, hys] at hgw
      cases hgw
  · cases hgw : genWeek today runs pe goal week with
    | ok wk => exact ⟨wk, rfl⟩
    | error e =>
      simp only [genWeek, if_neg hzero, mapME] at hgw
      cases hgw

/-- Inverting a successful `generate`: the recommendations are the
week-by-week `genWeek` outputs. -/
theorem generate_ok_parts (today : ℤ) (runs : List Run) (pe : Bool)
    (weeksAhead : ℕ) (goal : Option ℚ) (resp : RecommendationResponse)
    (h : generate today runs pe weeksAhead goal = .ok resp) :
    mapME (genWeek today runs pe goal) (List.range weeksAhead) =
      .ok resp.recommendations := by
  simp only [generate] at h
  split at h
  · cases h
  · rename_i recs heq
    cases h
    exact heq

/-- `generate` succeeds whenever the effective pool does not have exactly one
day. -/
theorem generate_ok_of_ne_one (today : ℤ) (runs : List Run) (pe : Bool)
    (weeksAhead : ℕ) (goal : Option ℚ)
    (hpool : (effectiveRunDaysOf today runs pe).length ≠ 1) :
    ∃ resp, generate today runs pe weeksAhead goal = .ok resp := by
  have hok : ∀ w ∈ List.range weeksAhead,
      ∃ wk, genWeek today runs pe goal w = .ok wk := by
    intro w _
    exact genWeek_ok_of_ne_one today runs pe goal w hpool
  rcases mapME_ok_of_forall hok with ⟨recs, hrecs⟩
  cases hgen : generate today runs pe weeksAhead goal with
  | ok resp => exact ⟨resp, rfl⟩
  | error e =>
    simp only [generate, hrecs] at hgen
    cases hgen

/-- The JS floor-at-5 (`if (t < 5) t = 5`) is a `max`. -/
theorem floor_at_five_eq_max (t : ℚ) : (if t < 5 then 5 else t) = max t 5 := by
  rcases lt_or_le t 5 with h | h
  · rw [if_pos h, max_eq_right (le_of_lt h)]
  · rw [if_neg (not_lt.mpr h), max_eq_left h]

/-- The code's week target equals the spec's target formula, provided a
supplied goal is at least 5 (its documented lower bound). -/
theorem weekTargetOf_eq_spec (today : ℤ) (runs : List Run) (goal : Option ℚ)
    (w : ℕ) (hg : ∀ g, goal = some g → (5 : ℚ) ≤ g) :
    weekTargetOf today runs goal w = specWeekTarget today runs goal w := by
  cases goal with
  | none =>
    simp only [weekTargetOf, currentTargetOf, jsOr, specWeekTarget, specBaseTarget,
      floor_at_five_eq_max]
  | some g =>
    have h5 : (5 : ℚ) ≤ g := hg g rfl
    have hg0 : ¬g = 0 := by intro h; rw [h] at h5; norm_num at h5
    have hbase : specBaseTarget today runs (some g) = g := by
      simp only [specBaseTarget]
      exact max_eq_left h5
    simp only [weekTargetOf, currentTargetOf, jsOr, if_neg hg0, specWeekTarget, hbase,
      floor_at_five_eq_max, max_eq_left h5]

/-- C2: for `generate(weeks_ahead, goal_weekly_km?)` with a goal respecting
its documented lower bound, the emitted plan has one week per requested week,
the week-0 target is the base target (goal if supplied else the rounded
weekly average, floored at 5 km/week) unmodified, and every later week `w`
has target `min(goal or ∞, round(base * 1.1^w))`. -/
theorem c2_weekly_target_progression (today : ℤ) (runs : List Run) (pe : Bool)
    (weeksAhead : ℕ) (goal : Option ℚ) (resp : RecommendationResponse)
    (hg : ∀ g, goal = some g → (5 : ℚ) ≤ g)
    (hok : generate today runs pe weeksAhead goal = .ok resp) :
    resp.recommendations.length = weeksAhead ∧
    ∀ (w : ℕ) (rec : WeeklyRecommendation),
      resp.recommendations[w]? = some rec →
      rec.targetDistance = specWeekTarget today runs goal w := by
  have hmap := generate_ok_parts today runs pe weeksAhead goal resp hok
  rcases mapME_ok_get hmap with ⟨hlen, hget⟩
  refine ⟨by rw [hlen, List.length_range], ?_⟩
  intro w rec hrec
  rcases hget w rec hrec with ⟨x, hx, hgw⟩
  have hxw : x = w := by
    rcases lt_or_le w weeksAhead with hlt | hle
    · rw [List.getElem?_range hlt] at hx
      exact (Option.some.injEq _ _).mp hx.symm
    · rw [List.getElem?_eq_none (by rwa [List.length_range])] at hx
      cases hx
  subst hxw
  have hparts := genWeek_ok_parts today runs pe goal x rec hgw
  rw [hparts.2.1]
  exact weekTargetOf_eq_spec today runs goal x hg

/-- C2 witness: with a single 20 km run in the 8-week window (weekly average
exactly 20), no goal and 3 weeks requested, the targets are 20, 22 and 24,
and the week-2 target matches the spec formula via the progression theorem. -/
theorem c2_weekly_target_progression_example :
    targetsOf (generate 20000 [run20k] false 3 none) = [20, 22, 24] ∧
    ∃ resp, generate 20000 [run20k] false 3 none = Except.ok resp ∧
      ∀ rec, resp.recommendations[2]? = some rec →
        rec.targetDistance = specWeekTarget 20000 [run20k] none 2 := by
  refine ⟨by with_unfolding_all rfl, ?_⟩
  obtain ⟨resp, hresp⟩ := generate_ok_of_ne_one 20000 [run20k] false 3 none
    (of_decide_eq_true (by with_unfolding_all rfl))
  exact ⟨resp, hresp, fun rec hrec =>
    (c2_weekly_target_progression 20000 [run20k] false 3 none resp
      (fun g h => by cases h) hresp).2 2 rec hrec⟩

/-- A runner with zero history has no preferred days. -/
theorem preferredDaysOf_nil (today : ℤ) : preferredDaysOf today [] = [] := by
  simp only [preferredDaysOf, dayCountsOf, recentRunsOf, List.filter_nil,
    List.length_nil]
  rw [List.filter_eq_nil]
  intro a _
  norm_num

/-- The effective pool of a runner with zero history is the default
Mon/Wed/Fri/Sun pattern (Saturday is appended and removed again when parkrun
is enabled). -/
theorem effectiveRunDaysOf_empty (today : ℤ) (pe : Bool) :
    effectiveRunDaysOf today [] pe = [1, 3, 5, 0] := by
  have hbase : baseRunDaysOf today [] = [1, 3, 5, 0] := by
    rw [baseRunDaysOf, preferredDaysOf_nil]
    rfl
  have hrd : runDaysOf today [] pe =
      if pe = true then [1, 3, 5, 0, 6] else [1, 3, 5, 0] := by
    rw [runDaysOf, hbase]
    cases pe with
    | false => simp
    | true => simp
  rw [effectiveRunDaysOf, hrd]
  cases pe with
  | false => simp
  | true => simp

/-- C8: every analytic component returns its documented zero/absent/sentinel
value on empty input instead of failing: the summary statistics are all 0
with the 'N/A' weekday sentinel, the predictor and all personal records are
absent, location clustering is empty, the consistency statistics are zero
with `days_since_last` falling back to the lookback window, and schedule
generation still succeeds for a runner with zero history. -/
theorem c8_empty_input_defaults :
    getRunStats [] =
      { total_runs := 0, total_distance := 0, total_time := 0,
        average_distance := 0, average_pace_seconds := 0,
        average_speed_kmh := 0, longest_run := 0,
        most_frequent_day := "N/A" } ∧
    predict5KTime [] = none ∧
    getPersonalRecords [] =
      { longest_distance := none, fastest_5k := none,
        fastest_10k := none, most_elevation := none } ∧
    (∀ r : ℚ, getLocationClusters r [] = []) ∧
    (∀ r : Option ℚ, getByLocation r [] = []) ∧
    (∀ days nowMs : ℤ, getConsistencyStats days nowMs 0 [] [] =
      { period_days := days, runs_in_period := 0, current_streak := 0,
        longest_streak := 0, avg_runs_per_week := 0,
        days_since_last_run := days }) ∧
    (∀ (today : ℤ) (pe : Bool) (weeksAhead : ℕ) (goal : Option ℚ),
      ∃ resp, generate today [] pe weeksAhead goal = .ok resp) := by
  refine ⟨by with_unfolding_all rfl, rfl, rfl, fun r => rfl, fun r => rfl, ?_, ?_⟩
  · intro days nowMs
    have havg : jroundQ (((0 : ℕ) : ℚ) / ((days : ℚ) / 7) * 10) / 10 = 0 := by
      norm_num [jroundQ, jround]
    simp only [getConsistencyStats, havg]
    rfl
  · intro today pe weeksAhead goal
    apply generate_ok_of_ne_one
    rw [effectiveRunDaysOf_empty]
    decide

/-- With parkrun enabled, the effective target is the week target less the
fixed 5 km, clamped at 0. -/
theorem effectiveTargetOf_true (today : ℤ) (runs : List Run) (goal : Option ℚ)
    (week : ℕ) :
    effectiveTargetOf today runs true goal week =
      (if weekTargetOf today runs goal week - 5 < 0 then 0
       else weekTargetOf today runs goal week - 5) := by
  rw [effectiveTargetOf]
  simp only [parkrunDistance, if_pos rfl, if_true]

/-- Every run of a week scheduled by `genWeek` with parkrun enabled satisfies
the parkrun invariant: exactly one parkrun entry, on Saturday with 5 km; no
other run on Saturday; long/tempo/easy distances computed from the
event-adjusted target. -/
theorem genWeek_parkrun_props (today : ℤ) (runs : List Run) (goal : Option ℚ)
    (week : ℕ) (wk : WeeklyRecommendation)
    (h : genWeek today runs true goal week = .ok wk) :
    (wk.runs.filter (fun r => r.type = RunType.parkrun)).length = 1 ∧
    (∀ r ∈ wk.runs, r.type = RunType.parkrun →
      jsGetDay r.date = 6 ∧ r.distance = some 5) ∧
    (∀ r ∈ wk.runs, r.type ≠ RunType.parkrun → jsGetDay r.date ≠ 6) ∧
    (∀ r ∈ wk.runs,
      (r.type = RunType.long → r.distance = some (jroundQ
        ((if wk.targetDistance - 5 < 0 then 0 else wk.targetDistance - 5) *
          (25/100)))) ∧
      (r.type = RunType.tempo → r.distance = some (jroundQ
        ((if wk.targetDistance - 5 < 0 then 0 else wk.targetDistance - 5) *
          (15/100)))) ∧
      (r.type = RunType.easy → r.distance = some (min (jroundQ
        ((if wk.targetDistance - 5 < 0 then 0 else wk.targetDistance - 5) *
          (30/100))) 10))) := by
  obtain ⟨hws, htd, weekRuns, hmap, hruns⟩ :=
    genWeek_ok_parts today runs true goal week wk h
  have hMon : jsGetDay (getWeekStartDate today (week : ℤ)) = 1 :=
    jsGetDay_getWeekStartDate today (week : ℤ)
  have hET : effectiveTargetOf today runs true goal week =
      (if wk.targetDistance - 5 < 0 then 0 else wk.targetDistance - 5) := by
    rw [effectiveTargetOf_true, htd]
  have hpk : (match parkrunRunOf true (getWeekStartDate today (week : ℤ)) with
      | some p => [p] | none => []) =
      [{ date := getWeekStartDate today (week : ℤ) + 5, type := RunType.parkrun,
         distance := some parkrunDistance,
         duration := some (jroundQ (parkrunDistance * 6)),
         notes := NoteText.parkrunNote }] := rfl
  have hwr : ∀ r ∈ weekRuns,
      (r.type = RunType.long ∨ r.type = RunType.tempo ∨ r.type = RunType.easy) ∧
      jsGetDay r.date ≠ 6 ∧
      (r.type = RunType.long → r.distance = some (jroundQ
        (effectiveTargetOf today runs true goal week * (25/100)))) ∧
      (r.type = RunType.tempo → r.distance = some (jroundQ
        (effectiveTargetOf today runs true goal week * (15/100)))) ∧
      (r.type = RunType.easy → r.distance = some (min (jroundQ
        (effectiveTargetOf today runs true goal week * (30/100))) 10)) := by
    intro r hr
    by_cases hlen : 0 < (effectiveRunDaysOf today runs true).length
    · rw [if_pos hlen] at hmap
      rcases mapME_ok_mem hmap r hr with ⟨e, he, hbe⟩
      rcases scheduleOf_mem _ _ e he with ⟨hty, hday⟩
      rcases e with ⟨dopt, ty⟩
      cases dopt with
      | none => cases hbe
      | some d =>
        rcases buildScheduled_ok (getWeekStartDate today (week : ℤ))
          (effectiveTargetOf today runs true goal week) d ty with
          ⟨r2, hr2, hdate, htyp, h25, h15, h30⟩
        have hrr : r2 = r := by
          rw [hr2] at hbe
          exact (Except.ok.injEq _ _).mp hbe
        subst hrr
        have hdmem : d ∈ sortBy dayLe (effectiveRunDaysOf today runs true) :=
          hday d rfl
        have hdmem2 : d ∈ effectiveRunDaysOf today runs true :=
          mem_sortBy.mp hdmem
        rcases effectiveRunDaysOf_mem today runs true d hdmem2 with ⟨hrd, hne6⟩
        rcases runDaysOf_bounds today runs true d hrd with ⟨hd0, hd7⟩
        have hgd : jsGetDay r2.date = d := by
          rw [hdate]
          exact jsGetDay_monday_offset _ d hMon hd0 hd7
        refine ⟨by rw [htyp]; exact hty, ?_, ?_, ?_, ?_⟩
        · rw [hgd]
          exact hne6 rfl
        · intro hl; exact h25 (htyp.symm.trans hl ▸ rfl)
        · intro hl; exact h15 (htyp.symm.trans hl ▸ rfl)
        · intro hl; exact h30 (htyp.symm.trans hl ▸ rfl)
    · rw [if_neg hlen] at hmap
      have : weekRuns = [] := ((Except.ok.injEq _ _).mp hmap).symm
      rw [this] at hr
      simp at hr
  have hperm : wk.runs.Perm (weekRuns ++
      [{ date := getWeekStartDate today (week : ℤ) + 5, type := RunType.parkrun,
         distance := some parkrunDistance,
         duration := some (jroundQ (parkrunDistance * 6)),
         notes := NoteText.parkrunNote }]) := by
    rw [hruns, hpk]
    exact sortBy_perm _ _
  have hmem_iff : ∀ r, r ∈ wk.runs ↔ (r ∈ weekRuns ∨
      r = { date := getWeekStartDate today (week : ℤ) + 5,
            type := RunType.parkrun, distance := some parkrunDistance,
            duration := some (jroundQ (parkrunDistance * 6)),
            notes := NoteText.parkrunNote }) := by
    intro r
    rw [hperm.mem_iff, List.mem_append]
    simp
  refine ⟨?_, ?_, ?_, ?_⟩
  · rw [← List.countP_eq_length_filter]
    rw [hperm.countP_eq]
    rw [List.countP_append]
    have hz : weekRuns.countP (fun r => decide (r.type = RunType.parkrun)) = 0 := by
      rw [List.countP_eq_zero]
      intro r hr
      rcases (hwr r hr).1 with h1 | h1 | h1 <;> simp [h1]
    rw [hz]
    rfl
  · intro r hr hty
    rcases (hmem_iff r).mp hr with hcase | hcase
    · rcases (hwr r hcase).1 with h1 | h1 | h1 <;> rw [hty] at h1 <;> cases h1
    · subst hcase
      constructor
      · exact jsGetDay_monday_add_five _ hMon
      · rfl
  · intro r hr hty
    rcases (hmem_iff r).mp hr with hcase | hcase
    · exact (hwr r hcase).2.1
    · exfalso
      apply hty
      rw [hcase]
  · intro r hr
    rcases (hmem_iff r).mp hr with hcase | hcase
    · rcases hwr r hcase with ⟨_, _, h25, h15, h30⟩
      rw [hET] at h25 h15 h30
      exact ⟨h25, h15, h30⟩
    · refine ⟨?_, ?_, ?_⟩ <;> intro hl <;> rw [hcase] at hl <;> cases hl

/-- C3: with the recurring weekly event (parkrun) enabled, every emitted
weekly plan contains exactly one event-type entry, dated on the event's fixed
weekday (Saturday) with fixed distance 5 km; no other recommended run of the
week falls on that weekday; and the event's 5 km is subtracted from the
week's target (clamped at 0) before the long (25%), tempo (15%) and easy
(30%, capped at 10 km) distances are assigned. -/
theorem c3_parkrun_week_invariant (today : ℤ) (runs : List Run)
    (weeksAhead : ℕ) (goal : Option ℚ) (resp : RecommendationResponse)
    (hok : generate today runs true weeksAhead goal = .ok resp) :
    ∀ wk ∈ resp.recommendations,
      (wk.runs.filter (fun r => r.type = RunType.parkrun)).length = 1 ∧
      (∀ r ∈ wk.runs, r.type = RunType.parkrun →
        jsGetDay r.date = 6 ∧ r.distance = some 5) ∧
      (∀ r ∈ wk.runs, r.type ≠ RunType.parkrun → jsGetDay r.date ≠ 6) ∧
      (∀ r ∈ wk.runs,
        (r.type = RunType.long → r.distance = some (jroundQ
          ((if wk.targetDistance - 5 < 0 then 0 else wk.targetDistance - 5) *
            (25/100)))) ∧
        (r.type = RunType.tempo → r.distance = some (jroundQ
          ((if wk.targetDistance - 5 < 0 then 0 else wk.targetDistance - 5) *
            (15/100)))) ∧
        (r.type = RunType.easy → r.distance = some (min (jroundQ
          ((if wk.targetDistance - 5 < 0 then 0 else wk.targetDistance - 5) *
            (30/100))) 10))) := by
  intro wk hwk
  have hmap := generate_ok_parts today runs true weeksAhead goal resp hok
  rcases mapME_ok_mem hmap wk hwk with ⟨w, _, hgw⟩
  exact genWeek_parkrun_props today runs goal w wk hgw

/-- C3 witness: a zero-history runner with parkrun enabled, one week ahead
and goal 40: the generated week carries exactly one parkrun entry, and the
invariant theorem applies to it. -/
theorem c3_parkrun_week_invariant_example :
    ∃ resp, generate 20000 [] true 1 (some 40) = Except.ok resp ∧
      (∀ wk ∈ resp.recommendations,
        (wk.runs.filter (fun r => r.type = RunType.parkrun)).length = 1 ∧
        (∀ r ∈ wk.runs, r.type = RunType.parkrun →
          jsGetDay r.date = 6 ∧ r.distance = some 5)) ∧
      resp.recommendations.map (fun wk =>
        wk.runs.map (fun r => (jsGetDay r.date, r.type, r.distance))) =
        [[(1, RunType.long, some 9), (3, RunType.tempo, some 5),
          (5, RunType.easy, some 10), (6, RunType.parkrun, some 5),
          (0, RunType.easy, some 10)]] := by
  obtain ⟨resp, hresp⟩ := generate_ok_of_ne_one 20000 [] true 1 (some 40)
    (by rw [effectiveRunDaysOf_empty]; decide)
  refine ⟨resp, hresp, ?_, ?_⟩
  · intro wk hwk
    have hall := c3_parkrun_week_invariant 20000 [] 1 (some 40) resp hresp wk hwk
    exact ⟨hall.1, hall.2.1⟩
  · have hproj := congrArg weekSummaryOf hresp
    calc resp.recommendations.map (fun wk =>
          wk.runs.map (fun r => (jsGetDay r.date, r.type, r.distance)))
        = weekSummaryOf (Except.ok resp) := rfl
      _ = weekSummaryOf (generate 20000 [] true 1 (some 40)) := hproj.symm
      _ = [[(1, RunType.long, some 9), (3, RunType.tempo, some 5),
            (5, RunType.easy, some 10), (6, RunType.parkrun, some 5),
            (0, RunType.easy, some 10)]] := by with_unfolding_all rfl
